import Mathlib

set_option maxRecDepth 10000

/-!
Verification development for the Isratest blog pipeline.

The JavaScript sources (`migrate.mjs`, the build script, `serve.mjs`) are
shallowly embedded here.  Strings are modelled as `List Char` (JavaScript
strings are sequences of code units; all inputs relevant to the claims stay
within the Basic Multilingual Plane, where code units and code points agree).
Regex-based string operations are embedded as explicit recursive scanners
with the same match semantics as the specific patterns used by the source.
-/

namespace Isratest

/-! ## Character classes (JavaScript regex classes, by code point)

`jsIsWordChar` models the regex class `\w` without the unicode flag,
which is exactly `[A-Za-z0-9_]`.  `jsIsSpace` models `\s` (and the
whitespace set used by `String.prototype.trim`). -/

def jsIsWordChar (c : Char) : Bool :=
  decide ((97 ≤ c.toNat ∧ c.toNat ≤ 122) ∨ (65 ≤ c.toNat ∧ c.toNat ≤ 90) ∨
    (48 ≤ c.toNat ∧ c.toNat ≤ 57) ∨ c.toNat = 95)

def jsIsSpace (c : Char) : Bool :=
  decide ((9 ≤ c.toNat ∧ c.toNat ≤ 13) ∨ c.toNat = 32 ∨ c.toNat = 0xa0 ∨
    c.toNat = 0x1680 ∨ (0x2000 ≤ c.toNat ∧ c.toNat ≤ 0x200a) ∨ c.toNat = 0x2028 ∨
    c.toNat = 0x2029 ∨ c.toNat = 0x202f ∨ c.toNat = 0x205f ∨ c.toNat = 0x3000 ∨
    c.toNat = 0xfeff)

/-- Models `String.prototype.toLowerCase` per character.  ASCII `A`-`Z` and the
Latin-1 uppercase range map down by 32 (matching the Unicode simple lowercase
mapping); the Kelvin sign and dotted capital I are the characters outside those
ranges whose JavaScript lowercase contains an ASCII letter, and are mapped to
that letter (the combining dot produced for dotted capital I is dropped by the
character strip that always follows this map in `slugify`).  All other
characters lowercase to characters in the same regex class as themselves, so
they are modelled as fixed points. -/
def jsToLower (c : Char) : Char :=
  if 65 ≤ c.toNat ∧ c.toNat ≤ 90 then Char.ofNat (c.toNat + 32)
  else if (192 ≤ c.toNat ∧ c.toNat ≤ 222) ∧ c.toNat ≠ 215 then Char.ofNat (c.toNat + 32)
  else if c.toNat = 0x212a then 'k'
  else if c.toNat = 0x130 then 'i'
  else c

/-! ## Slugifier (`migrate.mjs`, function `slugify`)

lowercase, strip everything but word characters, whitespace and hyphens,
collapse whitespace runs to one hyphen, collapse hyphen runs, trim one
leading and one trailing hyphen, truncate to 60 characters. -/

/-- Models `.replace(/[^\w\s-]/g, '')`: keep word characters, whitespace and
hyphen, delete everything else. -/
def stripNonWord (l : List Char) : List Char :=
  l.filter (fun c => jsIsWordChar c || jsIsSpace c || c = '-')

/-- Models `.replace(/X+/g, '-')` for a character class `X` given by `p`:
each maximal run of characters satisfying `p` is replaced by one hyphen. -/
def collapseRuns (p : Char → Bool) : List Char → List Char
  | [] => []
  | c :: cs =>
    match cs with
    | [] => if p c then ['-'] else [c]
    | d :: _ =>
      if p c && p d then collapseRuns p cs
      else (if p c then '-' else c) :: collapseRuns p cs

/-- Models `.replace(/\s+/g, '-')`. -/
def collapseSpaces (l : List Char) : List Char := collapseRuns jsIsSpace l

/-- Models the hyphen-run collapse step (runs of hyphens become one hyphen). -/
def collapseHyphens (l : List Char) : List Char := collapseRuns (fun c => c == '-') l

/-- Drops one leading hyphen if present (the `^-` alternative of
`.replace(/^-|-$/g, '')`). -/
def dropLeadHyphen (l : List Char) : List Char :=
  match l with
  | [] => []
  | c :: r => if c = '-' then r else c :: r

/-- Drops one trailing hyphen if present (the `-$` alternative of
`.replace(/^-|-$/g, '')`). -/
def dropTrailHyphen (l : List Char) : List Char :=
  (dropLeadHyphen l.reverse).reverse

/-- Models `.replace(/^-|-$/g, '')`: the global regex matches a hyphen at the
start and a hyphen at the end, once each. -/
def trimHyphens (l : List Char) : List Char :=
  dropTrailHyphen (dropLeadHyphen l)

/-- The `slugify` pipeline before the final `.substring(0, 60)`. -/
def slugPre (title : List Char) : List Char :=
  trimHyphens (collapseHyphens (collapseSpaces (stripNonWord (title.map jsToLower))))

/-- Models `slugify` from `migrate.mjs`. -/
def slugify (title : List Char) : List Char :=
  (slugPre title).take 60

/-- The character class of `slugify` output claimed by the spec reader:
ASCII lowercase letters, digits, underscore, hyphen. -/
def isSlugChar (c : Char) : Bool :=
  decide ((97 ≤ c.toNat ∧ c.toNat ≤ 122) ∨ (48 ≤ c.toNat ∧ c.toNat ≤ 57) ∨
    c.toNat = 95 ∨ c.toNat = 45)

/-! ## The `no adjacent hyphens` invariant -/

/-- No two adjacent hyphens. -/
def NoHH (l : List Char) : Prop := l.Chain' (fun a b => ¬(a = '-' ∧ b = '-'))

/-! ## EntityDecoder (`migrate.mjs`, function `decodeEntities`)

`String.prototype.replace` with a global literal pattern is embedded as a
left-to-right, non-overlapping scan; the replacement text is not rescanned.
The recursion is driven by a fuel argument initialised to the input length
(every step consumes at least one input character, so the fuel never runs
out); this keeps the definitions structurally recursive and kernel-evaluable.
-/

/-- One step of `replace` with global literal pattern `p :: ps` and
replacement `rep`. -/
def replaceStrAux (p : Char) (ps rep : List Char) : Nat → List Char → List Char
  | 0, l => l
  | _ + 1, [] => []
  | fuel + 1, c :: cs =>
    if (p :: ps).isPrefixOf (c :: cs) then
      rep ++ replaceStrAux p ps rep fuel (cs.drop ps.length)
    else c :: replaceStrAux p ps rep fuel cs

/-- Models `.replace(pat, rep)` for a global literal pattern `p :: ps`
(all patterns in `decodeEntities` and `escapeHtml` are non-empty literals). -/
def replaceStr (p : Char) (ps rep : List Char) (l : List Char) : List Char :=
  replaceStrAux p ps rep l.length l

/-- Parses the decimal digits and closing semicolon of a numeric character
reference, accumulating the decimal value; models the greedy match of the
digit group followed by a literal semicolon. -/
def numRefAux (acc : Nat) : List Char → Option (Nat × List Char)
  | c :: cs =>
    if c.isDigit then numRefAux (10 * acc + (c.toNat - 48)) cs
    else if c = ';' then some (acc, cs) else none
  | [] => none

/-- Parses at least one decimal digit followed by a semicolon. -/
def numRef : List Char → Option (Nat × List Char)
  | c :: cs => if c.isDigit then numRefAux (c.toNat - 48) cs else none
  | [] => none

/-- Models the global numeric-reference replace: an ampersand and hash
followed by digits and a semicolon becomes the character
`String.fromCharCode(parseInt(digits))`, i.e. the code point reduced modulo
65536 (values in the surrogate range are not valid Lean characters and fall
back to the null character; no claim depends on such inputs). -/
def decodeNumericAux : Nat → List Char → List Char
  | 0, l => l
  | _ + 1, [] => []
  | fuel + 1, c :: cs =>
    if c = '&' then
      match cs with
      | '#' :: rest =>
        match numRef rest with
        | some (v, after) => Char.ofNat (v % 65536) :: decodeNumericAux fuel after
        | none => c :: decodeNumericAux fuel cs
      | _ => c :: decodeNumericAux fuel cs
    else c :: decodeNumericAux fuel cs

/-- Models `.replace(numeric reference pattern, fromCharCode)`. -/
def decodeNumeric (l : List Char) : List Char := decodeNumericAux l.length l

/-- Models `decodeEntities` from `migrate.mjs`: the numeric pass first, then
the named references in source order (mdash, rarr, larr, amp, quot, lt, gt,
euml, eacute, egrave, agrave, ccedil, Eacute, ucirc, ocirc, acirc, icirc,
nbsp). -/
def decodeEntities (s : List Char) : List Char :=
  replaceStr '&' (("nbsp;").data) ((" ").data) (
  replaceStr '&' (("icirc;").data) (("î").data) (
  replaceStr '&' (("acirc;").data) (("â").data) (
  replaceStr '&' (("ocirc;").data) (("ô").data) (
  replaceStr '&' (("ucirc;").data) (("û").data) (
  replaceStr '&' (("Eacute;").data) (("É").data) (
  replaceStr '&' (("ccedil;").data) (("ç").data) (
  replaceStr '&' (("agrave;").data) (("à").data) (
  replaceStr '&' (("egrave;").data) (("è").data) (
  replaceStr '&' (("eacute;").data) (("é").data) (
  replaceStr '&' (("euml;").data) (("ë").data) (
  replaceStr '&' (("gt;").data) ((">").data) (
  replaceStr '&' (("lt;").data) (("<").data) (
  replaceStr '&' (("quot;").data) (("\x22").data) (
  replaceStr '&' (("amp;").data) (("&").data) (
  replaceStr '&' (("larr;").data) (("←").data) (
  replaceStr '&' (("rarr;").data) (("→").data) (
  replaceStr '&' (("mdash;").data) (("—").data) (
  decodeNumeric s))))))))))))))))))

/-- Models `String.prototype.trim` (the JavaScript trim set coincides with
the `\s` class). -/
def trimJs (l : List Char) : List Char :=
  ((l.dropWhile jsIsSpace).reverse.dropWhile jsIsSpace).reverse

/-! ## DateCodec (`migrate.mjs`, functions `parseEnDate`, `parseFrDate`,
`parseHeDate`) -/

/-- Models `.replace(',', '')` with a plain string pattern: only the first
comma is removed. -/
def removeFirstComma : List Char → List Char
  | [] => []
  | c :: cs => if c = ',' then cs else c :: removeFirstComma cs

/-- Helper for the whitespace-run split: `cur` holds the characters of the
current piece in reverse. -/
def splitWsAux (cur : List Char) : List Char → List (List Char)
  | [] => [cur.reverse]
  | c :: cs =>
    if jsIsSpace c then
      match cs with
      | [] => [cur.reverse, []]
      | d :: _ =>
        if jsIsSpace d then splitWsAux cur cs
        else cur.reverse :: splitWsAux [] cs
    else splitWsAux (c :: cur) cs

/-- Models `.split(regex whitespace run)`: each maximal whitespace run is a
separator; a leading or trailing run contributes an empty piece, and the
empty string yields one empty piece. -/
def splitWs (l : List Char) : List (List Char) := splitWsAux [] l

/-- Helper for the single-space split. -/
def splitOnSpaceAux (cur : List Char) : List Char → List (List Char)
  | [] => [cur.reverse]
  | c :: cs =>
    if c = ' ' then cur.reverse :: splitOnSpaceAux [] cs
    else splitOnSpaceAux (c :: cur) cs

/-- Models `.split(' ')`: every single space character is a separator. -/
def splitOnSpace (l : List Char) : List (List Char) := splitOnSpaceAux [] l

/-- Models `.padStart(2, '0')`. -/
def padStart2 (l : List Char) : List Char :=
  if 2 ≤ l.length then l else List.replicate (2 - l.length) '0' ++ l

/-- Models the falsy-coalescing `a || b` on strings: the empty string (and,
upstream, a missing table entry mapped to the empty string) falls through to
`b`. -/
def jsOr (a b : List Char) : List Char := if a = [] then b else a

/-- The inherited `Object.prototype` properties visible through bracket
lookup on a plain object literal, with the string each coerces to inside a
template literal (the Node/V8 native-function source text; the accessor
property yields the prototype object itself, which coerces to
`[object Object]`).  JavaScript property access consults the prototype
chain after own properties, and all of these values are truthy, so they
bypass a `|| dflt` fallback. -/
def protoProps : List (List Char × List Char) :=
  [(("constructor").data, ("function Object() \x7b [native code] \x7d").data),
   (("hasOwnProperty").data, ("function hasOwnProperty() \x7b [native code] \x7d").data),
   (("isPrototypeOf").data, ("function isPrototypeOf() \x7b [native code] \x7d").data),
   (("propertyIsEnumerable").data,
     ("function propertyIsEnumerable() \x7b [native code] \x7d").data),
   (("toLocaleString").data, ("function toLocaleString() \x7b [native code] \x7d").data),
   (("toString").data, ("function toString() \x7b [native code] \x7d").data),
   (("valueOf").data, ("function valueOf() \x7b [native code] \x7d").data),
   (("__defineGetter__").data, ("function __defineGetter__() \x7b [native code] \x7d").data),
   (("__defineSetter__").data, ("function __defineSetter__() \x7b [native code] \x7d").data),
   (("__lookupGetter__").data, ("function __lookupGetter__() \x7b [native code] \x7d").data),
   (("__lookupSetter__").data, ("function __lookupSetter__() \x7b [native code] \x7d").data),
   (("__proto__").data, ("[object Object]").data)]

/-- Models `table[key] || dflt` on an object literal: an own property wins
(and still falls through to `dflt` when its value is falsy), otherwise the
lookup walks the prototype chain and an inherited `Object.prototype` member
is returned as-is (truthy, so `||` keeps it), and only a completely absent
key (`undefined`, falsy) yields `dflt`. -/
def jsLookupOr (table : List (List Char × List Char)) (key dflt : List Char) : List Char :=
  match table.lookup key with
  | some v => jsOr v dflt
  | none =>
    match protoProps.lookup key with
    | some v => v
    | none => dflt

/-- The English month-name table of `migrate.mjs`. -/
def enMonths : List (List Char × List Char) :=
  [(("january").data, ("01").data), (("february").data, ("02").data),
   (("march").data, ("03").data), (("april").data, ("04").data),
   (("may").data, ("05").data), (("june").data, ("06").data),
   (("july").data, ("07").data), (("august").data, ("08").data),
   (("september").data, ("09").data), (("october").data, ("10").data),
   (("november").data, ("11").data), (("december").data, ("12").data)]

/-- The French month-name table of `migrate.mjs`. -/
def frMonths : List (List Char × List Char) :=
  [(("janvier").data, ("01").data), (("février").data, ("02").data),
   (("mars").data, ("03").data), (("avril").data, ("04").data),
   (("mai").data, ("05").data), (("juin").data, ("06").data),
   (("juillet").data, ("07").data), (("août").data, ("08").data),
   (("septembre").data, ("09").data), (("octobre").data, ("10").data),
   (("novembre").data, ("11").data), (("décembre").data, ("12").data)]

/-- The Hebrew month-name table of `migrate.mjs`. -/
def heMonths : List (List Char × List Char) :=
  [(("ינואר").data, ("01").data), (("פברואר").data, ("02").data),
   (("מרץ").data, ("03").data), (("אפריל").data, ("04").data),
   (("מאי").data, ("05").data), (("יוני").data, ("06").data),
   (("יולי").data, ("07").data), (("אוגוסט").data, ("08").data),
   (("ספטמבר").data, ("09").data), (("אוקטובר").data, ("10").data),
   (("נובמבר").data, ("11").data), (("דצמבר").data, ("12").data)]

/-- The token list `parts` of `parseEnDate`:
`dateStr.trim().replace(',', '').split(whitespace runs)`. -/
def enDateTokens (dateStr : List Char) : List (List Char) :=
  splitWs (removeFirstComma (trimJs dateStr))

/-- Models `parseEnDate` from `migrate.mjs`. -/
def parseEnDate (dateStr : List Char) : List Char :=
  if (enDateTokens dateStr).length = 3 then
    (enDateTokens dateStr).getD 2 [] ++
      ('-' :: jsLookupOr enMonths (((enDateTokens dateStr).getD 0 []).map jsToLower)
        (("01").data)) ++
      ('-' :: padStart2 ((enDateTokens dateStr).getD 1 []))
  else dateStr

/-- The value `decoded` shared by `parseFrDate` and `parseHeDate`:
`decodeEntities(dateStr).trim()`. -/
def decodedDate (dateStr : List Char) : List Char := trimJs (decodeEntities dateStr)

/-- The token list `parts` of `parseFrDate` and `parseHeDate`:
`decoded.split(' ')`. -/
def frHeDateTokens (dateStr : List Char) : List (List Char) :=
  splitOnSpace (decodedDate dateStr)

/-- Models `parseFrDate` from `migrate.mjs`. -/
def parseFrDate (dateStr : List Char) : List Char :=
  if (frHeDateTokens dateStr).length = 3 then
    (frHeDateTokens dateStr).getD 2 [] ++
      ('-' :: jsLookupOr frMonths (((frHeDateTokens dateStr).getD 1 []).map jsToLower)
        (("01").data)) ++
      ('-' :: padStart2 ((frHeDateTokens dateStr).getD 0 []))
  else decodedDate dateStr

/-- Models `parseHeDate` from `migrate.mjs` (exact-token month match, no
case folding). -/
def parseHeDate (dateStr : List Char) : List Char :=
  if (frHeDateTokens dateStr).length = 3 then
    (frHeDateTokens dateStr).getD 2 [] ++
      ('-' :: jsLookupOr heMonths ((frHeDateTokens dateStr).getD 1 [])
        (("01").data)) ++
      ('-' :: padStart2 ((frHeDateTokens dateStr).getD 0 []))
  else decodedDate dateStr

/-! ## Data model of the build script

A `Post` is the frontmatter record read from one Markdown document (the
`data` object of gray-matter).  The date is modelled in its string form
`YYYY-MM-DD` as written by the migration script. -/

structure Post where
  title : List Char
  slug : List Char
  date : List Char
  category : List Char
  excerpt : List Char
  image : List Char
  image_alt : List Char
  featured : Bool
deriving DecidableEq

/-- The three language configurations of the build script. -/
inductive Lang
  | en
  | fr
  | he
deriving DecidableEq

/-- The rendering-relevant fields of a `langs` entry (the file-path fields
drive I/O only and are not modelled). -/
structure LangCfg where
  categoryLabels : List (List Char × List Char)
  readMore : List Char
  listenNow : List Char
  readFull : List Char
  arrow : List Char
deriving DecidableEq

/-- The `langs` table of the build script. -/
def langCfg : Lang → LangCfg
  | Lang.en =>
    { categoryLabels :=
        [(("real-estate").data, ("Israel Real Estate").data),
         (("economy").data, ("The Shekel Exchange").data),
         (("team").data, ("The Team").data),
         (("podcasts").data, ("Podcasts").data)],
      readMore := ("Read More").data,
      listenNow := ("Listen Now").data,
      readFull := ("Read Full Article").data,
      arrow := ("&rarr;").data }
  | Lang.fr =>
    { categoryLabels :=
        [(("real-estate").data, ("Immobilier en Isra&euml;l").data),
         (("economy").data, ("Le Change du Shekel").data),
         (("team").data, ("L\x27&Eacute;quipe").data),
         (("podcasts").data, ("Podcasts").data)],
      readMore := ("Lire la Suite").data,
      listenNow := ("&Eacute;couter").data,
      readFull := ("Lire l\x27Article Complet").data,
      arrow := ("&rarr;").data }
  | Lang.he =>
    { categoryLabels :=
        [(("real-estate").data, ("&#1504;&#1491;&#1500;&quot;&#1503; &#1489;&#1497;&#1513;&#1512;&#1488;&#1500;").data),
         (("economy").data, ("&#1513;&#1506;&#1512; &#1492;&#1513;&#1511;&#1500;").data),
         (("team").data, ("&#1492;&#1510;&#1493;&#1493;&#1514;").data),
         (("podcasts").data, ("&#1508;&#1493;&#1491;&#1511;&#1488;&#1505;&#1496;&#1497;&#1501;").data)],
      readMore := ("&#1511;&#1512;&#1488;&#1493; &#1506;&#1493;&#1491;").data,
      listenNow := ("&#1492;&#1488;&#1494;&#1497;&#1504;&#1493; &#1506;&#1499;&#1513;&#1497;&#1493;").data,
      readFull := ("&#1511;&#1512;&#1488;&#1493; &#1488;&#1514; &#1492;&#1502;&#1488;&#1502;&#1512; &#1492;&#1502;&#1500;&#1488;").data,
      arrow := ("&larr;").data }

/-- Models `escapeHtml` from the build script: escape ampersand, then angle
brackets, then double quote. -/
def escapeHtml (s : List Char) : List Char :=
  replaceStr '\x22' [] (("&quot;").data) (
  replaceStr '>' [] (("&gt;").data) (
  replaceStr '<' [] (("&lt;").data) (
  replaceStr '&' [] (("&amp;").data) s)))

/-- Decimal digit string of a number, as JavaScript renders integers. -/
def natToChars (n : Nat) : List Char := Nat.toDigits 10 n

/-- Numeric value of a decimal digit string (the in-range fragment of
JavaScript number parsing). -/
def digitsToNat (l : List Char) : Nat := l.foldl (fun a c => 10 * a + (c.toNat - 48)) 0

/-- Split on a single character, as `.split(sep)` with a one-character
separator string. -/
def splitCharAux (sep : Char) (cur : List Char) : List Char → List (List Char)
  | [] => [cur.reverse]
  | c :: cs =>
    if c = sep then cur.reverse :: splitCharAux sep [] cs
    else splitCharAux sep (c :: cur) cs

/-- Split a list on every occurrence of `sep`. -/
def splitChar (sep : Char) (l : List Char) : List (List Char) := splitCharAux sep [] l

/-- The English long month names used by `Intl` for `en-US`. -/
def intlMonthsEn : List (List Char) :=
  [("January").data, ("February").data, ("March").data, ("April").data,
   ("May").data, ("June").data, ("July").data, ("August").data,
   ("September").data, ("October").data, ("November").data, ("December").data]

/-- The French long month names used by `Intl` for `fr-FR`. -/
def intlMonthsFr : List (List Char) :=
  [("janvier").data, ("février").data, ("mars").data, ("avril").data,
   ("mai").data, ("juin").data, ("juillet").data, ("août").data,
   ("septembre").data, ("octobre").data, ("novembre").data, ("décembre").data]

/-- The Hebrew long month names (with the date-context preposition) used by
`Intl` for `he-IL`. -/
def intlMonthsHe : List (List Char) :=
  [("בינואר").data, ("בפברואר").data, ("במרץ").data, ("באפריל").data,
   ("במאי").data, ("ביוני").data, ("ביולי").data, ("באוגוסט").data,
   ("בספטמבר").data, ("באוקטובר").data, ("בנובמבר").data, ("בדצמבר").data]

/-- Models `formatDate` from the build script on the string form of the
date: the ISO string is split on hyphens and rendered through a model of
`Intl.DateTimeFormat` for the three locale/option configurations the script
uses (long month, numeric day and year, UTC time zone pinned).  Only
calendar-valid dates reach this function in the pipeline; out-of-range month
indices render an empty month name. -/
def formatDate (dateVal : List Char) (lang : Lang) : List Char :=
  let parts := splitChar '-' dateVal
  let y := digitsToNat (parts.getD 0 [])
  let m := digitsToNat (parts.getD 1 [])
  let d := digitsToNat (parts.getD 2 [])
  match lang with
  | Lang.en => intlMonthsEn.getD (m - 1) [] ++ (' ' :: natToChars d) ++ (',' :: ' ' :: natToChars y)
  | Lang.fr => natToChars d ++ (' ' :: intlMonthsFr.getD (m - 1) []) ++ (' ' :: natToChars y)
  | Lang.he => natToChars d ++ (' ' :: intlMonthsHe.getD (m - 1) []) ++ (' ' :: natToChars y)

/-- The card image colour palette of the build script. -/
def cardColors : List (List Char) :=
  [("0D2847").data, ("1a3a5c").data, ("1a4a6e").data,
   ("1a3550").data, ("1a2844").data, ("1a3048").data]

/-- The reserved featured-post colour. -/
def featuredColor : List Char := ("1a2e4a").data

/-- Category label: `cfg.categoryLabels[post.category] || post.category`.
The bracket lookup consults the prototype chain, so a category naming an
inherited `Object.prototype` member yields that member, not the verbatim
fallback. -/
def catLabel (post : Post) (lang : Lang) : List Char :=
  jsLookupOr (langCfg lang).categoryLabels post.category post.category

/-- Featured link text with the locale arrow on the locale-appropriate side. -/
def featuredLink (post : Post) (lang : Lang) : List Char :=
  let linkText := if post.category = ("podcasts").data then (langCfg lang).listenNow
                  else (langCfg lang).readFull
  if lang = Lang.he then (langCfg lang).arrow ++ (' ' :: linkText)
  else linkText ++ (' ' :: (langCfg lang).arrow)

/-- Card link text with the locale arrow on the locale-appropriate side. -/
def cardLink (post : Post) (lang : Lang) : List Char :=
  let linkText := if post.category = ("podcasts").data then (langCfg lang).listenNow
                  else (langCfg lang).readMore
  if lang = Lang.he then (langCfg lang).arrow ++ (' ' :: linkText)
  else linkText ++ (' ' :: (langCfg lang).arrow)

/-- The `imgBlock` template fragment of `generateFeaturedPost`. -/
def featuredImgBlock (post : Post) : List Char :=
  ("      <div class=\x22featured-img\x22>\n        <img src=\x22").data ++
  jsOr post.image
    (("https://placehold.co/800x500/").data ++ featuredColor ++ ('/' :: featuredColor)) ++
  ("\x22 alt=\x22").data ++
  escapeHtml (jsOr post.image_alt post.title) ++
  ("\x22/>\n        <div class=\x22featured-img-overlay\x22></div>\n      </div>").data

/-- The `bodyBlock` template fragment of `generateFeaturedPost`. -/
def featuredBodyBlock (post : Post) (lang : Lang) : List Char :=
  ("      <div class=\x22featured-body\x22>\n        <div class=\x22featured-cat\x22>").data ++
  catLabel post lang ++
  ("</div>\n        <div class=\x22featured-date\x22>").data ++
  formatDate post.date lang ++
  ("</div>\n        <h2 class=\x22featured-title\x22><a href=\x22#\x22>").data ++
  escapeHtml post.title ++
  ("</a></h2>\n        <p class=\x22featured-excerpt\x22>").data ++
  escapeHtml post.excerpt ++
  ("</p>\n        <a href=\x22#\x22 class=\x22featured-link\x22>").data ++
  featuredLink post lang ++
  ("</a>\n      </div>").data

/-- The fragment of `generateFeaturedPost` before `inner`. -/
def featuredTop (post : Post) : List Char :=
  ("    <!-- Featured Post -->\n    <div class=\x22featured-post reveal\x22 data-cat=\x22").data ++
  post.category ++ ("\x22>\n").data

/-- The fragment of `generateFeaturedPost` after `inner`. -/
def featuredBot : List Char := ("\n    </div>").data

/-- Models `generateFeaturedPost` from the build script: for Hebrew the body
block is emitted first and the image block second; for other languages the
image block comes first. -/
def generateFeaturedPost (post : Post) (lang : Lang) : List Char :=
  featuredTop post ++
  (if lang = Lang.he then featuredBodyBlock post lang ++ ('\n' :: featuredImgBlock post)
   else featuredImgBlock post ++ ('\n' :: featuredBodyBlock post lang)) ++
  featuredBot

/-- The fragment of `generateBlogCard` before the image section: positional
comment, reveal class `rd((index mod 6) + 1)` and category attribute. -/
def cardTop (post : Post) (index : Nat) : List Char :=
  ("      <!-- Post ").data ++ natToChars (index + 1) ++
  (" -->\n      <div class=\x22blog-card reveal rd").data ++ natToChars (index % 6 + 1) ++
  ("\x22 data-cat=\x22").data ++ post.category ++ ("\x22>\n").data

/-- The image section of `generateBlogCard`, with the palette colour
`cardColors[index mod cardColors.length]` for the placeholder. -/
def cardImgSection (post : Post) (index : Nat) (lang : Lang) : List Char :=
  ("        <div class=\x22blog-card-img\x22>\n          <img src=\x22").data ++
  jsOr post.image
    (("https://placehold.co/600x400/").data ++ cardColors.getD (index % cardColors.length) [] ++
      ('/' :: cardColors.getD (index % cardColors.length) [])) ++
  ("\x22 alt=\x22").data ++
  escapeHtml (jsOr post.image_alt post.title) ++
  ("\x22/>\n          <div class=\x22blog-card-img-overlay\x22></div>\n          <div class=\x22blog-card-img-color\x22></div>\n          <span class=\x22blog-card-cat\x22>").data ++
  catLabel post lang ++
  ("</span>\n        </div>\n").data

/-- The body section of `generateBlogCard` (always emitted after the image
section, for every language). -/
def cardBodySection (post : Post) (lang : Lang) : List Char :=
  ("        <div class=\x22blog-card-body\x22>\n          <div class=\x22blog-card-date\x22>").data ++
  formatDate post.date lang ++
  ("</div>\n          <h3 class=\x22blog-card-title\x22><a href=\x22#\x22>").data ++
  escapeHtml post.title ++
  ("</a></h3>\n          <p class=\x22blog-card-excerpt\x22>").data ++
  escapeHtml post.excerpt ++
  ("</p>\n          <a href=\x22#\x22 class=\x22blog-card-link\x22>").data ++
  cardLink post lang ++
  ("</a>\n        </div>\n      </div>").data

/-- Models `generateBlogCard` from the build script. -/
def generateBlogCard (post : Post) (index : Nat) (lang : Lang) : List Char :=
  cardTop post index ++ cardImgSection post index lang ++ cardBodySection post lang

/-! ## PageAssembler: sort and featured selection -/

/-- Comparison key of `new Date(post.date)` on ISO `YYYY-MM-DD` strings:
order-isomorphic to the UTC timestamp for calendar dates. -/
def postDateVal (p : Post) : Nat :=
  let parts := splitChar '-' p.date
  digitsToNat (parts.getD 0 []) * 372 + digitsToNat (parts.getD 1 []) * 31 +
    digitsToNat (parts.getD 2 [])

/-- Stable insertion for the descending-by-date order: the new element is
placed after every earlier element whose key is greater than or equal to its
own, so elements with equal dates keep their original relative order. -/
def insertPostDesc (a : Post) : List Post → List Post
  | [] => [a]
  | b :: t =>
    if postDateVal b < postDateVal a then a :: b :: t
    else b :: insertPostDesc a t

/-- Models `posts.sort((a, b) => new Date(b.date) - new Date(a.date))`.
ECMAScript `Array.prototype.sort` is required to be stable, and for a
consistent comparator every stable sort produces the same list, so the sort
is embedded as a stable descending insertion sort. -/
def sortPosts (posts : List Post) : List Post :=
  posts.foldl (fun acc a => insertPostDesc a acc) []

/-- Models `Array.prototype.findIndex` (`none` standing for `-1`). -/
def jsFindIndex (f : Post → Bool) : List Post → Option Nat
  | [] => none
  | a :: t => if f a then some 0 else (jsFindIndex f t).map (· + 1)

/-- Models `featuredIdx`: the index of the first post with `featured ===
true`, with the `-1 → 0` newest-post fallback. -/
def featuredIdx (posts : List Post) : Nat :=
  match jsFindIndex (fun p => p.featured) posts with
  | some i => i
  | none => 0

/-- Models `posts[featuredIdx]` (on the already-sorted list). -/
def selectFeatured (posts : List Post) : Option Post := posts[featuredIdx posts]?

/-- Models `posts.filter((_, i) => i !== featuredIdx)`. -/
def gridCards (posts : List Post) : List Post :=
  ((posts.enum).filter (fun pi => pi.1 ≠ featuredIdx posts)).map Prod.snd

/-- Index of the first occurrence of `pat` as a sublist of `l`
(`l.length` when `pat` does not occur). -/
def subPos (pat : List Char) : List Char → Nat
  | [] => 0
  | c :: cs => if pat.isPrefixOf (c :: cs) then 0 else subPos pat cs + 1

/-- A concrete post used to instantiate claims. -/
def samplePost : Post :=
  { title := ("Dira").data, slug := ("dira").data, date := ("2025-01-23").data,
    category := ("economy").data, excerpt := ("Shalom").data, image := ("x.png").data,
    image_alt := ("Flat").data, featured := true }

/-- A concrete non-featured, older post. -/
def sampleOlder : Post :=
  { title := ("Old").data, slug := ("old").data, date := ("2024-06-01").data,
    category := ("team").data, excerpt := ("Older").data, image := [],
    image_alt := [], featured := false }

/-- A concrete post whose image URL contains HTML-hazardous characters. -/
def sampleAmpPost : Post :=
  { title := ("T&T").data, slug := ("t-t").data, date := ("2025-02-02").data,
    category := ("podcasts").data, excerpt := ("E<e>").data,
    image := ("a&b<c>\x22d.png").data, image_alt := ("Alt\x22x").data, featured := false }

/-! ## HtmlPostExtractor (`migrate.mjs`)

The field and block regexes of `migrate.mjs` are literal-anchored patterns
with lazy or character-class captures; each is embedded as a scanner with the
same first-match semantics.  A scanner that may retry at a later occurrence
of its anchor literal is driven by a fuel argument initialised to the input
length (each retry consumes at least the anchor, so the fuel never runs
out). -/

/-- Suffix immediately after the first occurrence of the pattern `p :: ps`,
or `none` if the pattern does not occur. -/
def findTail (p : Char) (ps : List Char) : List Char → Option (List Char)
  | [] => none
  | c :: cs =>
    if (p :: ps).isPrefixOf (c :: cs) then some (cs.drop ps.length)
    else findTail p ps cs

/-- Splits at the first occurrence of the pattern `p :: ps`: the text before
the occurrence and the suffix after it. -/
def splitAtSub (p : Char) (ps : List Char) : List Char → Option (List Char × List Char)
  | [] => none
  | c :: cs =>
    if (p :: ps).isPrefixOf (c :: cs) then some ([], cs.drop ps.length)
    else
      match splitAtSub p ps cs with
      | none => none
      | some (pre, post) => some (c :: pre, post)

/-- Models a regex of the shape `open`, lazy capture, `close`: the shortest
capture after the first viable occurrence of `open` (equivalent to the
regex's first match, since a close occurring after a later open also occurs
after the first one). -/
def matchCapture (openPat closePat : List Char) (s : List Char) : Option (List Char) :=
  match openPat, closePat with
  | po :: pso, pc :: psc =>
    match findTail po pso s with
    | none => none
    | some rest =>
      match splitAtSub pc psc rest with
      | none => none
      | some (pre, _) => some pre
  | _, _ => none

/-- Consume a literal prefix. -/
def expectLit (lit : List Char) (s : List Char) : Option (List Char) :=
  if lit.isPrefixOf s then some (s.drop lit.length) else none

/-- Models the capture of `data-cat="([^"]+)"`: at least one non-quote
character followed by a closing quote; on a failed occurrence the scan
resumes after that occurrence. -/
def scanCatAux : Nat → List Char → Option (List Char)
  | 0, _ => none
  | fuel + 1, s =>
    match findTail 'd' (("ata-cat=\x22").data) s with
    | none => none
    | some rest =>
      let cap := rest.takeWhile (fun c => c != '\x22')
      if cap.isEmpty then scanCatAux fuel rest
      else if (rest.dropWhile (fun c => c != '\x22')).isEmpty then scanCatAux fuel rest
      else some cap

/-- The `data-cat` capture of `parsePost`. -/
def scanCat (s : List Char) : Option (List Char) := scanCatAux s.length s

/-- Models the `<img src="([^"]*)" alt="([^"]*)"` match of `parsePost`:
greedy non-quote runs for `src` and `alt`, each closed by a quote, with the
literal `" alt="` between them. -/
def scanImgAux : Nat → List Char → Option (List Char × List Char)
  | 0, _ => none
  | fuel + 1, s =>
    match findTail '<' (("img src=\x22").data) s with
    | none => none
    | some rest =>
      let cap1 := rest.takeWhile (fun c => c != '\x22')
      let r1 := rest.dropWhile (fun c => c != '\x22')
      if (("\x22 alt=\x22").data).isPrefixOf r1 then
        let r2 := r1.drop (("\x22 alt=\x22").data).length
        let cap2 := r2.takeWhile (fun c => c != '\x22')
        if (r2.dropWhile (fun c => c != '\x22')).isEmpty then scanImgAux fuel rest
        else some (cap1, cap2)
      else scanImgAux fuel rest

/-- The image `src`/`alt` captures of `parsePost`. -/
def scanImg (s : List Char) : Option (List Char × List Char) := scanImgAux s.length s

/-- Models `parsePost` from `migrate.mjs` on one extracted block. -/
def parsePost (block : List Char) (lang : Lang) (isFeat : Bool) : Post :=
  let img := scanImg block
  let dateCap :=
    if isFeat then
      matchCapture (("<div class=\x22featured-date\x22>").data) (("</div>").data) block
    else matchCapture (("<div class=\x22blog-card-date\x22>").data) (("</div>").data) block
  let titleCap :=
    if isFeat then
      matchCapture (("<h2 class=\x22featured-title\x22><a href=\x22#\x22>").data)
        (("</a></h2>").data) block
    else
      matchCapture (("<h3 class=\x22blog-card-title\x22><a href=\x22#\x22>").data)
        (("</a></h3>").data) block
  let excerptCap :=
    if isFeat then
      matchCapture (("<p class=\x22featured-excerpt\x22>").data) (("</p>").data) block
    else matchCapture (("<p class=\x22blog-card-excerpt\x22>").data) (("</p>").data) block
  let title := decodeEntities (trimJs (titleCap.getD []))
  let dateStr := decodeEntities (trimJs (dateCap.getD []))
  let date :=
    match lang with
    | Lang.en => parseEnDate dateStr
    | Lang.fr => parseFrDate dateStr
    | Lang.he => parseHeDate dateStr
  let slugSource :=
    if lang = Lang.en then title
    else decodeEntities (jsOr ((img.map Prod.snd).getD []) title)
  { title := title, slug := slugify slugSource, date := date,
    category := (scanCat block).getD [],
    excerpt := decodeEntities (trimJs (excerptCap.getD [])),
    image := (img.map Prod.fst).getD [],
    image_alt := decodeEntities ((img.map Prod.snd).getD []),
    featured := isFeat }

/-- The opening structural anchor of the featured block. -/
def featuredOpenLit : List Char := ("<div class=\x22featured-post reveal\x22").data

/-- Does the featured closing sequence match at the start of `s`?  The
sequence is two `div` closers separated by optional whitespace, then a
whitespace run containing at least two newlines, then the Blog Grid comment
(the regex's whitespace stars and two literal newlines are together
equivalent to that run condition).  Returns how many characters it
consumes. -/
def matchCloseSeq (s : List Char) : Option Nat :=
  match expectLit (("</div>").data) s with
  | none => none
  | some r1 =>
    match expectLit (("</div>").data) (r1.dropWhile jsIsSpace) with
    | none => none
    | some r2 =>
      let run := r2.takeWhile jsIsSpace
      let rest := r2.dropWhile jsIsSpace
      if 2 ≤ run.count '\n' ∧ (("<!-- Blog Grid -->").data).isPrefixOf rest then
        some (s.length - (rest.drop (("<!-- Blog Grid -->").data).length).length)
      else none

/-- The lazy middle of the featured-block regex: scan for the earliest
position where the closing sequence matches and return everything up to and
including it. -/
def scanClose : List Char → Option (List Char)
  | [] => none
  | c :: cs =>
    match matchCloseSeq (c :: cs) with
    | some n => some ((c :: cs).take n)
    | none =>
      match scanClose cs with
      | none => none
      | some r => some (c :: r)

/-- Models `extractFeatured` from `migrate.mjs`: `none` models the `null`
returned when the regex does not match. -/
def extractFeatured (html : List Char) (lang : Lang) : Option Post :=
  match splitAtSub '<' (("div class=\x22featured-post reveal\x22").data) html with
  | none => none
  | some (_, afterOpen) =>
    match scanClose afterOpen with
    | none => none
    | some rest => some (parsePost (featuredOpenLit ++ rest) lang true)

/-- Does the grid closing sequence (`div` closer, whitespace, `div` closer,
whitespace, `section` closer) match at the start of `s`? -/
def matchGridClose (s : List Char) : Option Unit :=
  match expectLit (("</div>").data) s with
  | none => none
  | some r1 =>
    match expectLit (("</div>").data) (r1.dropWhile jsIsSpace) with
    | none => none
    | some r2 =>
      match expectLit (("</section>").data) (r2.dropWhile jsIsSpace) with
      | none => none
      | some _ => some ()

/-- The lazy grid capture: the text before the earliest grid-close match. -/
def scanGridClose : List Char → Option (List Char)
  | [] => none
  | c :: cs =>
    match matchGridClose (c :: cs) with
    | some _ => some []
    | none =>
      match scanGridClose cs with
      | none => none
      | some r => some (c :: r)

/-- Models the grid regex of `extractCards`: the Blog Grid comment, optional
whitespace, the grid opener, then the lazy capture up to the closing
sequence; a failed occurrence of the comment retries later. -/
def gridCaptureAux : Nat → List Char → Option (List Char)
  | 0, _ => none
  | fuel + 1, s =>
    match findTail '<' (("!-- Blog Grid -->").data) s with
    | none => none
    | some rest =>
      match expectLit (("<div class=\x22blog-grid\x22>").data) (rest.dropWhile jsIsSpace) with
      | none => gridCaptureAux fuel rest
      | some r2 =>
        match scanGridClose r2 with
        | none => gridCaptureAux fuel rest
        | some cap => some cap

/-- The `gridMatch[1]` capture of `extractCards`. -/
def gridCapture (s : List Char) : Option (List Char) := gridCaptureAux s.length s

/-- Does a `Post N` comment (`N` one or more digits) match at the start of
`s`?  Returns the suffix after it. -/
def postCommentTail (s : List Char) : Option (List Char) :=
  match expectLit (("<!-- Post ").data) s with
  | none => none
  | some r =>
    if (r.takeWhile Char.isDigit).isEmpty then none
    else expectLit ((" -->").data) (r.dropWhile Char.isDigit)

/-- Split on `Post N` comments (models `.split` with the comment regex). -/
def splitPostsAux (cur : List Char) : Nat → List Char → List (List Char)
  | 0, l => [cur.reverse ++ l]
  | _ + 1, [] => [cur.reverse]
  | fuel + 1, c :: cs =>
    match postCommentTail (c :: cs) with
    | some rest => cur.reverse :: splitPostsAux [] fuel rest
    | none => splitPostsAux (c :: cur) fuel cs

/-- The card-block split of `extractCards`. -/
def splitPosts (l : List Char) : List (List Char) := splitPostsAux [] l.length l

/-- Models `String.prototype.includes` for a non-empty pattern. -/
def containsSub (pat : List Char) (s : List Char) : Bool :=
  match pat with
  | [] => true
  | p :: ps => (findTail p ps s).isSome

/-- Models `extractCards` from `migrate.mjs`: the empty list models the `[]`
returned when the grid regex does not match. -/
def extractCards (html : List Char) (lang : Lang) : List Post :=
  match gridCapture html with
  | none => []
  | some gridHtml =>
    ((splitPosts gridHtml).filter (fun b => containsSub (("blog-card").data) b)).map
      (fun b => parsePost b lang false)

/-! ## The migration run (`migrate.mjs`, top level) -/

/-- Models the body of the card loop: `cards[i].slug = enSlugs[i + 1] ||
cards[i].slug` for each index `i` starting at `start`. -/
def unifyCardsFrom (enSlugs : List (List Char)) : Nat → List Post → List Post
  | _, [] => []
  | i, c :: cs =>
    { c with slug := jsOr (enSlugs.getD (i + 1) []) c.slug } ::
      unifyCardsFrom enSlugs (i + 1) cs

/-- The cross-language slug unification applied to a language's card list. -/
def unifyCards (enSlugs : List (List Char)) (cards : List Post) : List Post :=
  unifyCardsFrom enSlugs 0 cards

/-- One written Markdown document: language partition, file base name
(the slug), and the post record serialised into it. -/
structure WriteRec where
  lang : Lang
  name : List Char
  post : Post
deriving DecidableEq

/-- The writes performed for one language in the migration loop: the
featured document when a featured block exists (with the canonical slug
`enSlugs[0]`), then the card documents with unified slugs. -/
def langWrites (lang : Lang) (html : List Char) (enSlugs : List (List Char)) :
    List WriteRec :=
  (match extractFeatured html lang with
   | some f =>
     [{ lang := lang, name := enSlugs.getD 0 [],
        post := { f with slug := enSlugs.getD 0 [] } }]
   | none => []) ++
  (unifyCards enSlugs (extractCards html lang)).map
    (fun c => { lang := lang, name := c.slug, post := c })

/-- Models the top-level migration run on the three legacy pages.  The run
first builds the canonical slug list from the English page; `none` models the
TypeError thrown by `enFeatured.slug` when the English page has no featured
block (which aborts the whole run before any write). -/
def runMigration (pages : Lang → List Char) : Option (List WriteRec) :=
  match extractFeatured (pages Lang.en) Lang.en with
  | none => none
  | some enFeatured =>
    some ((([Lang.en, Lang.fr, Lang.he]).map
      (fun lang => langWrites lang (pages lang)
        (enFeatured.slug :: (extractCards (pages Lang.en) Lang.en).map (fun c => c.slug)))).flatten)

/-- A minimal legacy page containing a well-formed featured block, used as a
concrete English input. -/
def sampleHtml : List Char :=
  ("<div class=\x22featured-post reveal\x22 data-cat=\x22economy\x22><h2 class=\x22featured-title\x22><a href=\x22#\x22>Hello</a></h2></div> </div>\n\n<!-- Blog Grid -->").data

/-- Concrete page set: a valid English page, empty pages otherwise. -/
def samplePages : Lang → List Char
  | Lang.en => sampleHtml
  | Lang.fr => []
  | Lang.he => []

/-! ## Proof development -/

/-! ## Facts about characters -/

lemma char_toNat_ofNat (n : Nat) (h : n.isValidChar) : (Char.ofNat n).toNat = n := by
  rw [Char.ofNat, dif_pos h]
  simp [Char.ofNatAux, Char.toNat, UInt32.toNat, UInt32.ofNat']

lemma char_eq_of_toNat_eq {c d : Char} (h : c.toNat = d.toNat) : c = d := by
  have h2 := congrArg Char.ofNat h
  rwa [Char.ofNat_toNat, Char.ofNat_toNat] at h2

lemma jsToLower_cases (c : Char) :
    (97 ≤ (jsToLower c).toNat ∧ (jsToLower c).toNat ≤ 122) ∨
    (224 ≤ (jsToLower c).toNat ∧ (jsToLower c).toNat ≤ 254) ∨
    (jsToLower c = c ∧ ¬(65 ≤ c.toNat ∧ c.toNat ≤ 90)) := by
  unfold jsToLower
  by_cases h1 : 65 ≤ c.toNat ∧ c.toNat ≤ 90
  · rw [if_pos h1]
    have hv : (c.toNat + 32).isValidChar := Or.inl (by omega)
    rw [char_toNat_ofNat _ hv]
    exact Or.inl (by omega)
  · rw [if_neg h1]
    by_cases h2 : (192 ≤ c.toNat ∧ c.toNat ≤ 222) ∧ c.toNat ≠ 215
    · rw [if_pos h2]
      have hv : (c.toNat + 32).isValidChar := Or.inl (by omega)
      rw [char_toNat_ofNat _ hv]
      exact Or.inr (Or.inl (by omega))
    · rw [if_neg h2]
      by_cases h3 : c.toNat = 0x212a
      · rw [if_pos h3]
        exact Or.inl (by decide)
      · rw [if_neg h3]
        by_cases h4 : c.toNat = 0x130
        · rw [if_pos h4]
          exact Or.inl (by decide)
        · rw [if_neg h4]
          exact Or.inr (Or.inr ⟨rfl, h1⟩)

lemma word_jsToLower_isSlug (c : Char) (h : jsIsWordChar (jsToLower c) = true) :
    isSlugChar (jsToLower c) = true := by
  rcases jsToLower_cases c with h1 | h1 | ⟨heq, hnab⟩
  · simp only [isSlugChar, decide_eq_true_eq]
    omega
  · simp only [jsIsWordChar, decide_eq_true_eq] at h
    omega
  · rw [heq] at h ⊢
    simp only [jsIsWordChar, decide_eq_true_eq] at h
    simp only [isSlugChar, decide_eq_true_eq]
    omega

lemma jsToLower_eq_self {c : Char} (h : isSlugChar c = true) : jsToLower c = c := by
  simp only [isSlugChar, decide_eq_true_eq] at h
  unfold jsToLower
  rw [if_neg (by omega), if_neg (by omega), if_neg (by omega), if_neg (by omega)]

lemma jsToLower_eq_underscore {c : Char} (h : jsToLower c = '_') : c = '_' := by
  rcases jsToLower_cases c with h1 | h1 | ⟨heq, _⟩
  · rw [h] at h1
    exact absurd h1 (by decide)
  · rw [h] at h1
    exact absurd h1 (by decide)
  · rw [← heq, h]

lemma isSlugChar_not_space {c : Char} (h : isSlugChar c = true) : jsIsSpace c = false := by
  simp only [isSlugChar, decide_eq_true_eq] at h
  simp only [jsIsSpace, decide_eq_false_iff_not]
  omega

lemma isSlugChar_word_or_hyphen {c : Char} (h : isSlugChar c = true) :
    (jsIsWordChar c || jsIsSpace c || decide (c = '-')) = true := by
  simp only [isSlugChar, decide_eq_true_eq] at h
  rcases h with h | h | h | h
  · simp only [jsIsWordChar, decide_eq_true_eq, Bool.or_eq_true]
    left; left; omega
  · simp only [jsIsWordChar, decide_eq_true_eq, Bool.or_eq_true]
    left; left; omega
  · simp only [jsIsWordChar, decide_eq_true_eq, Bool.or_eq_true]
    left; left; omega
  · have hc : c = '-' := char_eq_of_toNat_eq (by simpa using h)
    simp [hc]

/-! ## Facts about `collapseRuns` -/

lemma collapseRuns_nil (p : Char → Bool) : collapseRuns p [] = [] := rfl

lemma collapseRuns_one (p : Char → Bool) (c : Char) :
    collapseRuns p [c] = if p c then ['-'] else [c] := rfl

lemma collapseRuns_two (p : Char → Bool) (c d : Char) (t : List Char) :
    collapseRuns p (c :: d :: t) =
      if p c && p d then collapseRuns p (d :: t)
      else (if p c then '-' else c) :: collapseRuns p (d :: t) := rfl

lemma mem_collapseRuns {p : Char → Bool} {c : Char} :
    ∀ {l : List Char}, c ∈ collapseRuns p l → c = '-' ∨ (c ∈ l ∧ p c = false) := by
  intro l
  induction l with
  | nil => intro h; simp [collapseRuns_nil] at h
  | cons d t ih =>
    cases t with
    | nil =>
      intro h
      rw [collapseRuns_one] at h
      by_cases hd : p d
      · rw [if_pos hd] at h
        exact Or.inl (by simpa using h)
      · rw [if_neg hd] at h
        have hc : c = d := by simpa using h
        subst hc
        exact Or.inr ⟨by simp, by simpa using hd⟩
    | cons e t2 =>
      intro h
      rw [collapseRuns_two] at h
      by_cases hde : p d && p e
      · rw [if_pos hde] at h
        rcases ih h with h1 | ⟨h1, h2⟩
        · exact Or.inl h1
        · exact Or.inr ⟨List.mem_cons_of_mem d h1, h2⟩
      · rw [if_neg hde] at h
        rcases List.mem_cons.mp h with h1 | h1
        · by_cases hd : p d
          · rw [if_pos hd] at h1; exact Or.inl h1
          · rw [if_neg hd] at h1
            subst h1
            exact Or.inr ⟨by simp, by simpa using hd⟩
        · rcases ih h1 with h2 | ⟨h2, h3⟩
          · exact Or.inl h2
          · exact Or.inr ⟨List.mem_cons_of_mem d h2, h3⟩

lemma head?_collapseRuns (p : Char → Bool) :
    ∀ (d : Char) (t : List Char),
      (collapseRuns p (d :: t)).head? = some (if p d then '-' else d) := by
  intro d t
  induction t generalizing d with
  | nil =>
    rw [collapseRuns_one]
    by_cases hd : p d
    · simp [hd]
    · simp [hd]
  | cons e t2 ih =>
    rw [collapseRuns_two]
    by_cases hde : p d && p e
    · rw [if_pos hde, ih e]
      have hd : p d = true := by
        cases hpd : p d with
        | true => rfl
        | false => rw [hpd] at hde; simp at hde
      have he : p e = true := by
        cases hpe : p e with
        | true => rfl
        | false => rw [hpe] at hde; simp at hde
      rw [if_pos hd, if_pos he]
    · rw [if_neg hde]
      simp

lemma collapseRuns_eq_self {p : Char → Bool} :
    ∀ {l : List Char}, (∀ c ∈ l, p c = false) → collapseRuns p l = l := by
  intro l
  induction l with
  | nil => intro _; rfl
  | cons d t ih =>
    cases t with
    | nil =>
      intro h
      rw [collapseRuns_one, if_neg]
      simp [h d (by simp)]
    | cons e t2 =>
      intro h
      rw [collapseRuns_two]
      have hd : p d = false := h d (by simp)
      rw [if_neg (by simp [hd]), if_neg (by simp [hd])]
      rw [ih (fun c hc => h c (List.mem_cons_of_mem d hc))]

lemma NoHH_nil : NoHH [] := List.chain'_nil

lemma NoHH_one (c : Char) : NoHH [c] := List.chain'_singleton c

lemma noHH_collapseHyphens : ∀ (l : List Char), NoHH (collapseHyphens l) := by
  intro l
  induction l with
  | nil => exact NoHH_nil
  | cons d t ih =>
    cases t with
    | nil =>
      unfold collapseHyphens
      rw [collapseRuns_one]
      by_cases hd : d == '-'
      · rw [if_pos hd]; exact NoHH_one _
      · rw [if_neg hd]; exact NoHH_one _
    | cons e t2 =>
      unfold collapseHyphens at *
      rw [collapseRuns_two]
      by_cases hde : (d == '-') && (e == '-')
      · rw [if_pos hde]; exact ih
      · rw [if_neg hde]
        have hh := head?_collapseRuns (fun c => c == '-') e t2
        cases hcr : collapseRuns (fun c => c == '-') (e :: t2) with
        | nil => exact NoHH_one _
        | cons y ys =>
          rw [hcr] at hh ih
          have hy : y = if (e == '-') = true then '-' else e := by simpa using hh
          refine List.chain'_cons.mpr ⟨?_, ih⟩
          rintro ⟨hx, hey⟩
          by_cases hd : (d == '-') = true
          · have he : (e == '-') = false := by
              cases hde2 : (e == '-') with
              | false => rfl
              | true => exact absurd (by rw [hd, hde2]; rfl) hde
            rw [he] at hy
            simp only [Bool.false_eq_true, if_false] at hy
            subst hy
            exact absurd (by simpa using hey) (by simpa using he)
          · rw [if_neg hd] at hx
            exact hd (by simp [hx])

lemma collapseHyphens_eq_self : ∀ {l : List Char}, NoHH l → collapseHyphens l = l := by
  intro l
  induction l with
  | nil => intro _; rfl
  | cons d t ih =>
    cases t with
    | nil =>
      intro _
      unfold collapseHyphens
      rw [collapseRuns_one]
      by_cases hd : (d == '-') = true
      · rw [if_pos hd]
        have : d = '-' := by simpa using hd
        rw [this]
      · rw [if_neg hd]
    | cons e t2 =>
      intro h
      have hre : ¬(d = '-' ∧ e = '-') := (List.chain'_cons.mp h).1
      have htl : NoHH (e :: t2) := (List.chain'_cons.mp h).2
      unfold collapseHyphens at *
      rw [collapseRuns_two]
      have hde : ((d == '-') && (e == '-')) = false := by
        cases hd : (d == '-') with
        | false => rfl
        | true =>
          cases he : (e == '-') with
          | false => rfl
          | true => exact absurd ⟨by simpa using hd, by simpa using he⟩ hre
      rw [if_neg (by simp [hde]), ih htl]
      by_cases hd : (d == '-') = true
      · rw [if_pos hd]
        have : d = '-' := by simpa using hd
        rw [this]
      · rw [if_neg hd]

/-! ## Facts about the hyphen trim -/

lemma dropLeadHyphen_eq_self {l : List Char} (h : l.head? ≠ some '-') :
    dropLeadHyphen l = l := by
  cases l with
  | nil => rfl
  | cons c t =>
    have hc : c ≠ '-' := by
      intro he
      exact h (by rw [he]; rfl)
    simp [dropLeadHyphen, hc]

lemma dropTrailHyphen_eq_self {l : List Char} (h : l.getLast? ≠ some '-') :
    dropTrailHyphen l = l := by
  unfold dropTrailHyphen
  rw [dropLeadHyphen_eq_self, List.reverse_reverse]
  rwa [List.head?_reverse]

lemma mem_dropLeadHyphen {c : Char} {l : List Char} (h : c ∈ dropLeadHyphen l) : c ∈ l := by
  cases l with
  | nil => simp [dropLeadHyphen] at h
  | cons d t =>
    by_cases hd : d = '-'
    · rw [show dropLeadHyphen (d :: t) = t by simp [dropLeadHyphen, hd]] at h
      exact List.mem_cons_of_mem d h
    · rwa [show dropLeadHyphen (d :: t) = d :: t by simp [dropLeadHyphen, hd]] at h

lemma mem_dropTrailHyphen {c : Char} {l : List Char} (h : c ∈ dropTrailHyphen l) : c ∈ l := by
  unfold dropTrailHyphen at h
  rw [List.mem_reverse] at h
  have h2 := mem_dropLeadHyphen h
  rwa [List.mem_reverse] at h2

lemma NoHH_tail {c : Char} {l : List Char} (h : NoHH (c :: l)) : NoHH l := h.tail

lemma NoHH_reverse {l : List Char} (h : NoHH l) : NoHH l.reverse := by
  unfold NoHH at *
  rw [List.chain'_reverse]
  exact h.imp (fun _ _ hab hba => hab ⟨hba.2, hba.1⟩)

lemma NoHH_dropLeadHyphen {l : List Char} (h : NoHH l) : NoHH (dropLeadHyphen l) := by
  cases l with
  | nil => exact NoHH_nil
  | cons c t =>
    by_cases hc : c = '-'
    · rw [show dropLeadHyphen (c :: t) = t by simp [dropLeadHyphen, hc]]
      exact NoHH_tail h
    · rwa [show dropLeadHyphen (c :: t) = c :: t by simp [dropLeadHyphen, hc]]

lemma NoHH_dropTrailHyphen {l : List Char} (h : NoHH l) : NoHH (dropTrailHyphen l) := by
  unfold dropTrailHyphen
  exact NoHH_reverse (NoHH_dropLeadHyphen (NoHH_reverse h))

lemma NoHH_trimHyphens {l : List Char} (h : NoHH l) : NoHH (trimHyphens l) :=
  NoHH_dropTrailHyphen (NoHH_dropLeadHyphen h)

lemma head?_dropLeadHyphen {l : List Char} (h : NoHH l) :
    (dropLeadHyphen l).head? ≠ some '-' := by
  cases l with
  | nil => simp [dropLeadHyphen]
  | cons c t =>
    by_cases hc : c = '-'
    · rw [show dropLeadHyphen (c :: t) = t by simp [dropLeadHyphen, hc]]
      cases t with
      | nil => simp
      | cons e t2 =>
        have hre : ¬(c = '-' ∧ e = '-') := (List.chain'_cons.mp h).1
        have he : e ≠ '-' := fun habs => hre ⟨hc, habs⟩
        simpa using he
    · rw [show dropLeadHyphen (c :: t) = c :: t by simp [dropLeadHyphen, hc]]
      simpa using hc

lemma getLast?_dropTrailHyphen {l : List Char} (h : NoHH l) :
    (dropTrailHyphen l).getLast? ≠ some '-' := by
  unfold dropTrailHyphen
  rw [← List.head?_reverse, List.reverse_reverse]
  exact head?_dropLeadHyphen (NoHH_reverse h)

lemma head?_dropTrailHyphen {l : List Char} {c : Char}
    (h : (dropTrailHyphen l).head? = some c) : l.head? = some c := by
  unfold dropTrailHyphen at h
  cases hrev : l.reverse with
  | nil =>
    rw [hrev] at h
    simp [dropLeadHyphen] at h
  | cons w ws =>
    have hl : l = (w :: ws).reverse := by rw [← hrev, List.reverse_reverse]
    rw [hrev] at h
    by_cases hw : w = '-'
    · rw [show dropLeadHyphen (w :: ws) = ws by simp [dropLeadHyphen, hw]] at h
      rw [hl]
      simp only [List.reverse_cons]
      rw [List.head?_append, h]
      rfl
    · rw [show dropLeadHyphen (w :: ws) = w :: ws by simp [dropLeadHyphen, hw]] at h
      rw [hl]
      exact h

/-! ## Invariants of `slugPre` and `slugify` -/

lemma slugPre_charset (t : List Char) : ∀ c ∈ slugPre t, isSlugChar c = true := by
  intro c hc
  unfold slugPre trimHyphens at hc
  have hc2 : c ∈ collapseHyphens (collapseSpaces (stripNonWord (t.map jsToLower))) :=
    mem_dropLeadHyphen (mem_dropTrailHyphen hc)
  unfold collapseHyphens at hc2
  rcases mem_collapseRuns hc2 with h | ⟨h3, _⟩
  · subst h; decide
  · unfold collapseSpaces at h3
    rcases mem_collapseRuns h3 with h | ⟨h4, hsp⟩
    · subst h; decide
    · unfold stripNonWord at h4
      obtain ⟨hmem, hq⟩ := List.mem_filter.mp h4
      obtain ⟨a, _, rfl⟩ := List.mem_map.mp hmem
      by_cases hw : jsIsWordChar (jsToLower a) = true
      · exact word_jsToLower_isSlug a hw
      · rw [Bool.not_eq_true] at hw
        rw [hw, hsp] at hq
        have hhy : jsToLower a = '-' := by simpa using hq
        rw [hhy]
        decide

lemma noHH_slugPre (t : List Char) : NoHH (slugPre t) :=
  NoHH_trimHyphens (noHH_collapseHyphens _)

lemma head?_slugPre (t : List Char) : (slugPre t).head? ≠ some '-' := by
  unfold slugPre trimHyphens
  intro habs
  have h2 := head?_dropTrailHyphen habs
  exact head?_dropLeadHyphen (noHH_collapseHyphens _) h2

lemma getLast?_slugPre (t : List Char) : (slugPre t).getLast? ≠ some '-' := by
  unfold slugPre trimHyphens
  exact getLast?_dropTrailHyphen (NoHH_dropLeadHyphen (noHH_collapseHyphens _))

lemma slugify_charset (t : List Char) : ∀ c ∈ slugify t, isSlugChar c = true :=
  fun c hc => slugPre_charset t c (List.take_subset 60 (slugPre t) hc)

lemma head?_take_pos {l : List Char} {n : Nat} (h : 0 < n) : (l.take n).head? = l.head? := by
  cases l with
  | nil => simp
  | cons c t =>
    cases n with
    | zero => exact absurd h (by simp)
    | succ m => simp [List.take]

lemma head?_slugify (t : List Char) : (slugify t).head? ≠ some '-' := by
  unfold slugify
  rw [head?_take_pos (by omega)]
  exact head?_slugPre t

lemma noHH_slugify (t : List Char) : NoHH (slugify t) :=
  List.Chain'.prefix (noHH_slugPre t) ( List.take_prefix 60 (slugPre t))

/-! ## Preservation of underscores through the pipeline -/

lemma count_map_jsToLower (l : List Char) :
    (l.map jsToLower).count '_' = l.count '_' := by
  induction l with
  | nil => rfl
  | cons a t ih =>
    simp only [List.map_cons, List.count_cons, ih]
    congr 1
    by_cases ha : a = '_'
    · simp [ha, jsToLower_eq_self (show isSlugChar '_' = true by decide)]
    · have : jsToLower a ≠ '_' := fun habs => ha (jsToLower_eq_underscore habs)
      simp [ha, this]

lemma count_collapseRuns {p : Char → Bool} {a : Char} (hpa : p a = false) (ha : a ≠ '-') :
    ∀ (l : List Char), (collapseRuns p l).count a = l.count a := by
  have hhy : ('-' : Char) ≠ a := fun habs => ha habs.symm
  intro l
  induction l with
  | nil => rfl
  | cons d t ih =>
    have hdp : p d = true → d ≠ a := by
      intro hd habs
      rw [habs, hpa] at hd
      cases hd
    cases t with
    | nil =>
      rw [collapseRuns_one]
      by_cases hd : p d = true
      · have hda : d ≠ a := hdp hd
        rw [if_pos hd]
        simp [List.count_cons, hhy, hda]
      · rw [if_neg hd]
    | cons e t2 =>
      rw [collapseRuns_two]
      by_cases hde : (p d && p e) = true
      · have hd : p d = true := by
          cases hpd : p d with
          | true => rfl
          | false => rw [hpd] at hde; simp at hde
        have hda : d ≠ a := hdp hd
        rw [if_pos hde, ih]
        simp [List.count_cons, hda]
      · rw [if_neg hde]
        by_cases hd : p d = true
        · have hda : d ≠ a := hdp hd
          rw [if_pos hd]
          simp [List.count_cons, ih, hhy, hda]
        · rw [if_neg hd]
          simp [List.count_cons, ih]

lemma count_dropLeadHyphen {a : Char} (ha : a ≠ '-') (l : List Char) :
    (dropLeadHyphen l).count a = l.count a := by
  cases l with
  | nil => rfl
  | cons c t =>
    by_cases hc : c = '-'
    · rw [show dropLeadHyphen (c :: t) = t by simp [dropLeadHyphen, hc]]
      subst hc
      simp [List.count_cons, ha.symm]
    · rw [show dropLeadHyphen (c :: t) = c :: t by simp [dropLeadHyphen, hc]]

lemma count_dropTrailHyphen {a : Char} (ha : a ≠ '-') (l : List Char) :
    (dropTrailHyphen l).count a = l.count a := by
  unfold dropTrailHyphen
  rw [List.count_reverse, count_dropLeadHyphen ha, List.count_reverse]

lemma count_underscore_slugPre (t : List Char) :
    (slugPre t).count '_' = t.count '_' := by
  unfold slugPre trimHyphens collapseHyphens collapseSpaces stripNonWord
  rw [count_dropTrailHyphen (by decide), count_dropLeadHyphen (by decide)]
  rw [count_collapseRuns (by decide) (by decide)]
  rw [count_collapseRuns (by decide) (by decide)]
  rw [List.count_filter (by decide)]
  exact count_map_jsToLower t

/-! ## Fixed points of the pipeline stages -/

lemma map_jsToLower_eq_self {l : List Char} (h : ∀ c ∈ l, isSlugChar c = true) :
    l.map jsToLower = l := by
  induction l with
  | nil => rfl
  | cons a t ih =>
    rw [List.map_cons, jsToLower_eq_self (h a (by simp)), ih]
    intro c hc
    exact h c (List.mem_cons_of_mem a hc)

lemma stripNonWord_eq_self {l : List Char} (h : ∀ c ∈ l, isSlugChar c = true) :
    stripNonWord l = l := by
  unfold stripNonWord
  exact List.filter_eq_self.mpr (fun c hc => isSlugChar_word_or_hyphen (h c hc))

lemma collapseSpaces_eq_self {l : List Char} (h : ∀ c ∈ l, isSlugChar c = true) :
    collapseSpaces l = l := by
  unfold collapseSpaces
  exact collapseRuns_eq_self (fun c hc => isSlugChar_not_space (h c hc))

lemma trimHyphens_eq_self {l : List Char} (h1 : l.head? ≠ some '-')
    (h2 : l.getLast? ≠ some '-') : trimHyphens l = l := by
  unfold trimHyphens
  rw [dropLeadHyphen_eq_self h1, dropTrailHyphen_eq_self h2]

/-! ## Claim theorems for the Slugifier -/

/-- C2 counterexample: as stated, the claim is false.  `slugify` of the empty
string is empty (refuting non-emptiness), and on an input whose hyphenated
form is 61 characters long the final truncation to 60 characters leaves a
trailing hyphen (refuting the no-trailing-separator invariant). -/
theorem slugify_claim_counterexample :
    slugify [] = [] ∧
    (slugify (List.replicate 59 'a' ++ [' ', 'b'])).getLast? = some '-' := by
  constructor
  · decide
  · decide

/-- C2 (amended): for every input, `slugify` returns a string over the
lowercase slug alphabet, of length at most 60, with no leading hyphen; the
value before the final truncation also has no trailing hyphen, and the result
is exactly that value truncated to 60 characters (the stated step order).
The result can be empty, and the truncation can re-expose a trailing hyphen. -/
theorem slugify_invariants (t : List Char) :
    (∀ c ∈ slugify t, isSlugChar c = true) ∧
    (slugify t).length ≤ 60 ∧
    (slugify t).head? ≠ some '-' ∧
    (slugPre t).getLast? ≠ some '-' ∧
    slugify t = (slugPre t).take 60 :=
  ⟨slugify_charset t, List.length_take_le 60 (slugPre t), head?_slugify t,
   getLast?_slugPre t, rfl⟩

/-- Witness for `slugify_invariants` at a concrete input. -/
theorem slugify_invariants_witness :
    isSlugChar 't' = true ∧ (slugify (("tel aviv").data)).length ≤ 60 :=
  ⟨(slugify_invariants (("tel aviv").data)).1 't' (by decide),
   (slugify_invariants (("tel aviv").data)).2.1⟩

/-- C3 counterexample: `slugify` is not idempotent.  On 59 `a`s followed by
a space and a `b`, the first application truncates to 59 `a`s and a trailing
hyphen, and the second application trims that hyphen away. -/
theorem slugify_not_idempotent :
    slugify (slugify (List.replicate 59 'a' ++ [' ', 'b'])) ≠
      slugify (List.replicate 59 'a' ++ [' ', 'b']) := by
  decide

/-- C3 (amended): `slugify` is idempotent on every input whose slug does not
end in a hyphen, i.e. whenever the final truncation does not cut right after
a hyphen.  (`slugify_not_idempotent` shows the restriction is needed.) -/
theorem slugify_idempotent_of_no_trailing_hyphen (t : List Char)
    (h : (slugify t).getLast? ≠ some '-') :
    slugify (slugify t) = slugify t := by
  have hcs := slugify_charset t
  have hlen : (slugify t).length ≤ 60 := List.length_take_le 60 (slugPre t)
  have hpre : slugPre (slugify t) = slugify t := by
    unfold slugPre
    rw [map_jsToLower_eq_self hcs, stripNonWord_eq_self hcs,
      collapseSpaces_eq_self hcs, collapseHyphens_eq_self (noHH_slugify t),
      trimHyphens_eq_self (head?_slugify t) h]
  show (slugPre (slugify t)).take 60 = slugify t
  rw [hpre]
  exact List.take_of_length_le hlen

/-- Witness for `slugify_idempotent_of_no_trailing_hyphen` at a concrete
input. -/
theorem slugify_idempotent_witness :
    (slugify (("hello world!").data)).getLast? ≠ some '-' ∧
    slugify (slugify (("hello world!").data)) = slugify (("hello world!").data) :=
  ⟨by decide, slugify_idempotent_of_no_trailing_hyphen (("hello world!").data) (by decide)⟩

/-- C10: every character of a `slugify` result is an ASCII lowercase letter,
a digit, an underscore or a hyphen; and underscores are preserved as-is by
the pipeline (their count before the final truncation equals their count in
the input — in particular they are never turned into hyphens). -/
theorem slugify_output_alphabet (t : List Char) :
    (∀ c ∈ slugify t, isSlugChar c = true) ∧
    (slugPre t).count '_' = t.count '_' :=
  ⟨slugify_charset t, count_underscore_slugPre t⟩

/-- Witness for `slugify_output_alphabet` at a concrete input. -/
theorem slugify_output_alphabet_witness :
    isSlugChar '_' = true ∧
    (slugPre (("a_b c").data)).count '_' = (("a_b c").data).count '_' :=
  ⟨(slugify_output_alphabet (("a_b c").data)).1 '_' (by decide),
   (slugify_output_alphabet (("a_b c").data)).2⟩

/-! ## Claim theorems for the EntityDecoder -/

lemma replaceStrAux_eq_self {p : Char} {ps rep : List Char} :
    ∀ (fuel : Nat) {l : List Char}, p ∉ l → replaceStrAux p ps rep fuel l = l := by
  intro fuel
  induction fuel with
  | zero => intro l _; rfl
  | succ n ih =>
    intro l h
    cases l with
    | nil => rfl
    | cons c cs =>
      have hc : c ≠ p := fun habs => h (by rw [habs]; exact List.mem_cons_self p cs)
      have hpre : (p :: ps).isPrefixOf (c :: cs) = false := by
        cases hp : (p :: ps).isPrefixOf (c :: cs) with
        | false => rfl
        | true =>
          have : p = c := by
            simp [List.isPrefixOf] at hp
            exact hp.1
          exact absurd this.symm hc
      show (if (p :: ps).isPrefixOf (c :: cs) = true then _ else _) = _
      rw [hpre]
      simp only [Bool.false_eq_true, if_false]
      rw [ih (fun habs => h (List.mem_cons_of_mem c habs))]

lemma replaceStr_eq_self {p : Char} {ps rep l : List Char} (h : p ∉ l) :
    replaceStr p ps rep l = l :=
  replaceStrAux_eq_self l.length h

lemma decodeNumericAux_eq_self :
    ∀ (fuel : Nat) {l : List Char}, '&' ∉ l → decodeNumericAux fuel l = l := by
  intro fuel
  induction fuel with
  | zero => intro l _; rfl
  | succ n ih =>
    intro l h
    cases l with
    | nil => rfl
    | cons c cs =>
      have hc : c ≠ '&' := fun habs => h (by rw [← habs]; exact List.mem_cons_self c cs)
      show (if c = '&' then _ else c :: decodeNumericAux n cs) = _
      rw [if_neg hc]
      rw [ih (fun habs => h (List.mem_cons_of_mem c habs))]

lemma decodeNumeric_eq_self {l : List Char} (h : '&' ∉ l) : decodeNumeric l = l :=
  decodeNumericAux_eq_self l.length h

lemma decodeEntities_eq_self {l : List Char} (h : '&' ∉ l) : decodeEntities l = l := by
  unfold decodeEntities
  rw [decodeNumeric_eq_self h]
  rw [replaceStr_eq_self h, replaceStr_eq_self h, replaceStr_eq_self h,
    replaceStr_eq_self h, replaceStr_eq_self h, replaceStr_eq_self h,
    replaceStr_eq_self h, replaceStr_eq_self h, replaceStr_eq_self h,
    replaceStr_eq_self h, replaceStr_eq_self h, replaceStr_eq_self h,
    replaceStr_eq_self h, replaceStr_eq_self h, replaceStr_eq_self h,
    replaceStr_eq_self h, replaceStr_eq_self h, replaceStr_eq_self h]

/-- C4 counterexample: entity decoding is not idempotent.  One pass over
`&amp;amp;` produces `&amp;`, which still contains reference syntax and
decodes further to `&` on a second pass. -/
theorem decode_not_idempotent :
    decodeEntities (decodeEntities (("&amp;amp;").data)) ≠
      decodeEntities (("&amp;amp;").data) := by
  decide

/-- C4 (amended): entity decoding is idempotent on every input whose decoded
form contains no ampersand — every reference pattern of the fixed table
starts with an ampersand, so a second pass is then a no-op.  (A single pass
can itself re-create reference syntax, e.g. on `&amp;amp;`, which is why the
claimed unconditional idempotence fails.) -/
theorem decode_idempotent_of_no_amp (s : List Char)
    (h : '&' ∉ decodeEntities s) :
    decodeEntities (decodeEntities s) = decodeEntities s :=
  decodeEntities_eq_self h

/-- Witness for `decode_idempotent_of_no_amp` at a concrete input. -/
theorem decode_idempotent_witness :
    '&' ∉ decodeEntities (("a&lt;b").data) ∧
    decodeEntities (decodeEntities (("a&lt;b").data)) = decodeEntities (("a&lt;b").data) :=
  ⟨by decide, decode_idempotent_of_no_amp (("a&lt;b").data) (by decide)⟩

/-! ## Claim theorems for the DateCodec -/

/-- C7 counterexample: a month token that is not in the 12-entry month table
does not always default to month `01` — a token naming an inherited
`Object.prototype` member (here `constructor`, reached after the parser's
lowercasing; `toString` for the case-sensitive Hebrew grammar) makes the
bracket lookup return the inherited function, which is truthy, so the `||`
default is bypassed and the function's string form is spliced into the
date. -/
theorem date_parse_proto_counterexample :
    enMonths.lookup (("constructor").data) = none ∧
    parseEnDate (("Constructor 5, 2025").data) ≠ ("2025-01-05").data ∧
    parseEnDate (("Constructor 5, 2025").data) =
      ("2025-function Object() \x7b [native code] \x7d-05").data ∧
    heMonths.lookup (("toString").data) = none ∧
    parseHeDate (("5 toString 2025").data) ≠ ("2025-01-05").data := by
  refine ⟨by decide, by decide, by decide, by decide, by decide⟩

/-- C7 (amended): in each of the three date grammars, an input that does not
split into exactly 3 tokens is returned as the decoded-but-unparsed text
(for English the already-decoded input itself, for French and Hebrew the
decoded and trimmed text); a 3-token input whose month key (the token,
lowercased for English and French) is neither in the locale's 12-entry month
table nor the name of an inherited `Object.prototype` member parses with the
month defaulted to `01`; and a month key naming an inherited
`Object.prototype` member yields that member's (truthy) value in place of
the default. -/
theorem date_parse_fallbacks (d : List Char) :
    ((enDateTokens d).length ≠ 3 → parseEnDate d = d) ∧
    ((frHeDateTokens d).length ≠ 3 → parseFrDate d = decodedDate d) ∧
    ((frHeDateTokens d).length ≠ 3 → parseHeDate d = decodedDate d) ∧
    ((enDateTokens d).length = 3 →
      enMonths.lookup (((enDateTokens d).getD 0 []).map jsToLower) = none →
      protoProps.lookup (((enDateTokens d).getD 0 []).map jsToLower) = none →
      parseEnDate d = (enDateTokens d).getD 2 [] ++ ("-01-").data ++
        padStart2 ((enDateTokens d).getD 1 [])) ∧
    ((frHeDateTokens d).length = 3 →
      frMonths.lookup (((frHeDateTokens d).getD 1 []).map jsToLower) = none →
      protoProps.lookup (((frHeDateTokens d).getD 1 []).map jsToLower) = none →
      parseFrDate d = (frHeDateTokens d).getD 2 [] ++ ("-01-").data ++
        padStart2 ((frHeDateTokens d).getD 0 [])) ∧
    ((frHeDateTokens d).length = 3 →
      heMonths.lookup ((frHeDateTokens d).getD 1 []) = none →
      protoProps.lookup ((frHeDateTokens d).getD 1 []) = none →
      parseHeDate d = (frHeDateTokens d).getD 2 [] ++ ("-01-").data ++
        padStart2 ((frHeDateTokens d).getD 0 [])) ∧
    ((enDateTokens d).length = 3 →
      enMonths.lookup (((enDateTokens d).getD 0 []).map jsToLower) = none →
      ∀ v, protoProps.lookup (((enDateTokens d).getD 0 []).map jsToLower) = some v →
      parseEnDate d = (enDateTokens d).getD 2 [] ++ ('-' :: v) ++
        ('-' :: padStart2 ((enDateTokens d).getD 1 []))) ∧
    ((frHeDateTokens d).length = 3 →
      frMonths.lookup (((frHeDateTokens d).getD 1 []).map jsToLower) = none →
      ∀ v, protoProps.lookup (((frHeDateTokens d).getD 1 []).map jsToLower) = some v →
      parseFrDate d = (frHeDateTokens d).getD 2 [] ++ ('-' :: v) ++
        ('-' :: padStart2 ((frHeDateTokens d).getD 0 []))) ∧
    ((frHeDateTokens d).length = 3 →
      heMonths.lookup ((frHeDateTokens d).getD 1 []) = none →
      ∀ v, protoProps.lookup ((frHeDateTokens d).getD 1 []) = some v →
      parseHeDate d = (frHeDateTokens d).getD 2 [] ++ ('-' :: v) ++
        ('-' :: padStart2 ((frHeDateTokens d).getD 0 []))) := by
  refine ⟨?_, ?_, ?_, ?_, ?_, ?_, ?_, ?_, ?_⟩
  · intro h
    unfold parseEnDate
    rw [if_neg h]
  · intro h
    unfold parseFrDate
    rw [if_neg h]
  · intro h
    unfold parseHeDate
    rw [if_neg h]
  · intro h hm hp
    unfold parseEnDate jsLookupOr
    rw [if_pos h, hm, hp]
    simp [List.append_assoc]
  · intro h hm hp
    unfold parseFrDate jsLookupOr
    rw [if_pos h, hm, hp]
    simp [List.append_assoc]
  · intro h hm hp
    unfold parseHeDate jsLookupOr
    rw [if_pos h, hm, hp]
    simp [List.append_assoc]
  · intro h hm v hp
    unfold parseEnDate jsLookupOr
    rw [if_pos h, hm, hp]
  · intro h hm v hp
    unfold parseFrDate jsLookupOr
    rw [if_pos h, hm, hp]
  · intro h hm v hp
    unfold parseHeDate jsLookupOr
    rw [if_pos h, hm, hp]

/-- Witness for `date_parse_fallbacks` at concrete inputs: a one-token
English input is returned verbatim, non-3-token French and Hebrew inputs are
returned decoded and trimmed, unknown non-inherited month names default to
month 01 in all three grammars, and a month token naming an inherited
`Object.prototype` member splices that member's value into the result. -/
theorem date_parse_fallbacks_witness :
    parseEnDate (("March2025").data) = ("March2025").data ∧
    parseFrDate ((" 2025 ").data) = decodedDate ((" 2025 ").data) ∧
    parseHeDate (("2025").data) = decodedDate (("2025").data) ∧
    parseEnDate (("Smarch 5, 2025").data) = ("2025-01-05").data ∧
    parseFrDate (("5 brumaire 2025").data) = ("2025-01-05").data ∧
    parseHeDate (("5 xyz 2025").data) = ("2025-01-05").data ∧
    parseHeDate (("5 valueOf 2025").data) =
      ("2025-function valueOf() \x7b [native code] \x7d-05").data := by
  refine ⟨?_, ?_, ?_, ?_, ?_, ?_, ?_⟩
  · exact (date_parse_fallbacks (("March2025").data)).1 (by decide)
  · exact (date_parse_fallbacks ((" 2025 ").data)).2.1 (by decide)
  · exact (date_parse_fallbacks (("2025").data)).2.2.1 (by decide)
  · rw [(date_parse_fallbacks (("Smarch 5, 2025").data)).2.2.2.1 (by decide) (by decide)
      (by decide)]
    decide
  · rw [(date_parse_fallbacks (("5 brumaire 2025").data)).2.2.2.2.1 (by decide) (by decide)
      (by decide)]
    decide
  · rw [(date_parse_fallbacks (("5 xyz 2025").data)).2.2.2.2.2.1 (by decide) (by decide)
      (by decide)]
    decide
  · rw [(date_parse_fallbacks (("5 valueOf 2025").data)).2.2.2.2.2.2.2.2 (by decide)
      (by decide) (("function valueOf() \x7b [native code] \x7d").data) (by decide)]
    decide

/-! ## Claim theorems for the HtmlPostRenderer -/

/-- C1 counterexample: for a Hebrew (RTL) card, `generateBlogCard` emits the
image block strictly before the body block — both markers occur in the
fragment and the image marker comes first, contradicting the claim that card
fragments are reordered under RTL. -/
theorem card_rtl_counterexample :
    subPos (("<div class=\x22blog-card-img\x22>").data) (generateBlogCard samplePost 0 Lang.he) <
      subPos (("<div class=\x22blog-card-body\x22>").data) (generateBlogCard samplePost 0 Lang.he) ∧
    subPos (("<div class=\x22blog-card-body\x22>").data) (generateBlogCard samplePost 0 Lang.he) <
      (generateBlogCard samplePost 0 Lang.he).length := by
  constructor
  · decide
  · decide

/-- C1 (amended): only `generateFeaturedPost` reorders its blocks for the
RTL locale — under Hebrew the featured fragment is top, body block, image
block, bottom, and under any other locale it is top, image block, body
block, bottom — while `generateBlogCard` emits the image section before the
body section for every locale and index. -/
theorem render_block_order (p : Post) :
    (generateFeaturedPost p Lang.he =
      featuredTop p ++ (featuredBodyBlock p Lang.he ++ ('\n' :: featuredImgBlock p)) ++
        featuredBot) ∧
    (∀ lang, lang ≠ Lang.he →
      generateFeaturedPost p lang =
        featuredTop p ++ (featuredImgBlock p ++ ('\n' :: featuredBodyBlock p lang)) ++
          featuredBot) ∧
    (∀ lang i, generateBlogCard p i lang =
      cardTop p i ++ cardImgSection p i lang ++ cardBodySection p lang) := by
  refine ⟨?_, ?_, ?_⟩
  · unfold generateFeaturedPost
    rw [if_pos rfl]
  · intro lang h
    unfold generateFeaturedPost
    rw [if_neg h]
  · intro lang i
    rfl

/-- Witness for `render_block_order` at a concrete non-RTL locale. -/
theorem render_block_order_witness :
    generateFeaturedPost samplePost Lang.en =
      featuredTop samplePost ++
        (featuredImgBlock samplePost ++ ('\n' :: featuredBodyBlock samplePost Lang.en)) ++
        featuredBot :=
  (render_block_order samplePost).2.1 Lang.en (by decide)

/-! ## Claim theorems for the PageAssembler selection -/

lemma jsFindIndex_of_find? {f : Post → Bool} :
    ∀ {l : List Post} {p : Post}, l.find? f = some p →
      ∃ i, jsFindIndex f l = some i ∧ l[i]? = some p := by
  intro l
  induction l with
  | nil => intro p h; simp [List.find?] at h
  | cons a t ih =>
    intro p h
    by_cases ha : f a
    · rw [List.find?_cons_of_pos _ ha] at h
      refine ⟨0, by simp [jsFindIndex, ha], ?_⟩
      simpa using h
    · rw [List.find?_cons_of_neg _ ha] at h
      obtain ⟨i, hi, hg⟩ := ih h
      refine ⟨i + 1, by simp [jsFindIndex, ha, hi], ?_⟩
      simpa using hg

lemma jsFindIndex_none {f : Post → Bool} :
    ∀ {l : List Post}, l.find? f = none → jsFindIndex f l = none := by
  intro l
  induction l with
  | nil => intro _; rfl
  | cons a t ih =>
    intro h
    by_cases ha : f a
    · rw [List.find?_cons_of_pos _ ha] at h
      cases h
    · rw [List.find?_cons_of_neg _ ha] at h
      simp [jsFindIndex, ha, ih h]

lemma enumFrom_filter_ne_eraseIdx (K : Nat) :
    ∀ (l : List Post) (n : Nat),
      ((l.enumFrom n).filter (fun pi => pi.1 ≠ K)).map Prod.snd =
        if K < n then l else l.eraseIdx (K - n) := by
  intro l
  induction l with
  | nil =>
    intro n
    by_cases h : K < n
    · rw [if_pos h]
      rfl
    · rw [if_neg h]
      rfl
  | cons a t ih =>
    intro n
    rw [List.enumFrom_cons, List.filter_cons]
    by_cases hnk : n = K
    · rw [if_neg (by simp [hnk])]
      rw [ih (n + 1), if_pos (by omega), if_neg (by omega)]
      have h0 : K - n = 0 := by omega
      rw [h0, List.eraseIdx_cons_zero]
    · rw [if_pos (by simp [hnk])]
      rw [List.map_cons, ih (n + 1)]
      by_cases hlt : K < n
      · rw [if_pos (by omega), if_pos hlt]
      · rw [if_neg (by omega), if_neg hlt]
        have hs : K - n = (K - (n + 1)) + 1 := by omega
        rw [hs, List.eraseIdx_cons_succ]

lemma gridCards_eraseIdx (l : List Post) :
    gridCards l = l.eraseIdx (featuredIdx l) := by
  unfold gridCards
  rw [show l.enum = l.enumFrom 0 from rfl]
  rw [enumFrom_filter_ne_eraseIdx (featuredIdx l) l 0]
  rw [if_neg (by omega), Nat.sub_zero]

/-- C5: on the date-descending sorted order of a language partition, the
featured post is the first post with `featured == true`; when no post is
flagged, the newest post (the head after sorting) is selected; and the grid
is exactly the sorted order with the featured entry removed. -/
theorem featured_selection (posts : List Post) :
    (∀ p, (sortPosts posts).find? (fun q => q.featured) = some p →
      selectFeatured (sortPosts posts) = some p) ∧
    ((sortPosts posts).find? (fun q => q.featured) = none →
      selectFeatured (sortPosts posts) = (sortPosts posts).head?) ∧
    gridCards (sortPosts posts) =
      (sortPosts posts).eraseIdx (featuredIdx (sortPosts posts)) := by
  refine ⟨?_, ?_, gridCards_eraseIdx _⟩
  · intro p h
    obtain ⟨i, hi, hg⟩ := jsFindIndex_of_find? h
    unfold selectFeatured featuredIdx
    rw [hi]
    exact hg
  · intro h
    unfold selectFeatured featuredIdx
    rw [jsFindIndex_none h]
    exact (List.head?_eq_getElem? _).symm

/-- Witness for `featured_selection` at a concrete two-post partition. -/
theorem featured_selection_witness :
    (sortPosts [sampleOlder, samplePost]).find? (fun q => q.featured) = some samplePost ∧
    selectFeatured (sortPosts [sampleOlder, samplePost]) = some samplePost :=
  ⟨by decide, (featured_selection [sampleOlder, samplePost]).1 samplePost (by decide)⟩

/-! ## Claim theorems for the unescaped image URL -/

lemma replaceStrAux_cons (q : Char) (ps rep : List Char) (n : Nat) (d : Char)
    (cs : List Char) :
    replaceStrAux q ps rep (n + 1) (d :: cs) =
      if (q :: ps).isPrefixOf (d :: cs) then
        rep ++ replaceStrAux q ps rep n (cs.drop ps.length)
      else d :: replaceStrAux q ps rep n cs := rfl

lemma mem_replaceStrAux_single {q : Char} {rep : List Char} {c : Char} :
    ∀ (fuel : Nat) {l : List Char}, l.length ≤ fuel →
      c ∈ replaceStrAux q [] rep fuel l → c ∈ rep ∨ (c ∈ l ∧ c ≠ q) := by
  intro fuel
  induction fuel with
  | zero =>
    intro l hl h
    have hnil : l = [] := List.length_eq_zero.mp (Nat.le_zero.mp hl)
    subst hnil
    simp [replaceStrAux] at h
  | succ n ih =>
    intro l hl h
    cases l with
    | nil => simp [replaceStrAux] at h
    | cons d cs =>
      rw [replaceStrAux_cons] at h
      by_cases hpre : ([q].isPrefixOf (d :: cs)) = true
      · rw [if_pos hpre] at h
        simp only [List.length_nil, List.drop_zero] at h
        rcases List.mem_append.mp h with h1 | h1
        · exact Or.inl h1
        · rcases ih (by simpa using Nat.le_of_succ_le_succ hl) h1 with h2 | ⟨h2, h3⟩
          · exact Or.inl h2
          · exact Or.inr ⟨List.mem_cons_of_mem d h2, h3⟩
      · rw [if_neg hpre] at h
        have hdq : d ≠ q := by
          intro habs
          apply hpre
          rw [habs]
          simp [List.isPrefixOf]
        rcases List.mem_cons.mp h with h1 | h1
        · refine Or.inr ⟨?_, ?_⟩
          · rw [h1]
            exact List.mem_cons_self d cs
          · rw [h1]
            exact hdq
        · rcases ih (by simpa using Nat.le_of_succ_le_succ hl) h1 with h2 | ⟨h2, h3⟩
          · exact Or.inl h2
          · exact Or.inr ⟨List.mem_cons_of_mem d h2, h3⟩

lemma mem_replaceStr_single {q : Char} {rep l : List Char} {c : Char}
    (h : c ∈ replaceStr q [] rep l) : c ∈ rep ∨ (c ∈ l ∧ c ≠ q) :=
  mem_replaceStrAux_single l.length (Nat.le_refl _) h

lemma escapeHtml_no_specials {s : List Char} {c : Char} (h : c ∈ escapeHtml s) :
    ¬(c = '<' ∨ c = '>' ∨ c = '\x22') := by
  intro habs
  unfold escapeHtml at h
  rcases mem_replaceStr_single h with h1 | ⟨h1, hq⟩
  · rcases habs with rfl | rfl | rfl
    · exact absurd h1 (by decide)
    · exact absurd h1 (by decide)
    · exact absurd h1 (by decide)
  · rcases mem_replaceStr_single h1 with h2 | ⟨h2, hg⟩
    · rcases habs with rfl | rfl | rfl
      · exact absurd h2 (by decide)
      · exact absurd h2 (by decide)
      · exact hq rfl
    · rcases mem_replaceStr_single h2 with h3 | ⟨h3, hl⟩
      · rcases habs with rfl | rfl | rfl
        · exact absurd h3 (by decide)
        · exact hg rfl
        · exact hq rfl
      · rcases mem_replaceStr_single h3 with h4 | ⟨h4, _⟩
        · rcases habs with rfl | rfl | rfl
          · exact absurd h4 (by decide)
          · exact hg rfl
          · exact hq rfl
        · rcases habs with rfl | rfl | rfl
          · exact hl rfl
          · exact hg rfl
          · exact hq rfl

lemma src_infix_featuredImgBlock {p : Post} (h : p.image ≠ []) :
    ("src=\x22").data ++ p.image ++ [('\x22' : Char)] <:+: featuredImgBlock p := by
  unfold featuredImgBlock jsOr
  rw [if_neg h]
  refine ⟨("      <div class=\x22featured-img\x22>\n        <img ").data,
    (" alt=\x22").data ++
      escapeHtml (if p.image_alt = [] then p.title else p.image_alt) ++
      ("\x22/>\n        <div class=\x22featured-img-overlay\x22></div>\n      </div>").data, ?_⟩
  have e1 : ("      <div class=\x22featured-img\x22>\n        <img src=\x22").data =
      ("      <div class=\x22featured-img\x22>\n        <img ").data ++ ("src=\x22").data := by
    decide
  have e2 : ("\x22 alt=\x22").data = [('\x22' : Char)] ++ (" alt=\x22").data := by decide
  rw [e1, e2]
  simp [List.append_assoc]

lemma imgBlock_infix_featured (p : Post) (lang : Lang) :
    featuredImgBlock p <:+: generateFeaturedPost p lang := by
  unfold generateFeaturedPost
  by_cases hl : lang = Lang.he
  · rw [if_pos hl]
    exact ⟨featuredTop p ++ featuredBodyBlock p lang ++ [('\n' : Char)], featuredBot, by
      simp [List.append_assoc]⟩
  · rw [if_neg hl]
    exact ⟨featuredTop p, ('\n' :: featuredBodyBlock p lang) ++ featuredBot, by
      simp [List.append_assoc]⟩

lemma src_infix_cardImgSection {p : Post} (i : Nat) (lang : Lang) (h : p.image ≠ []) :
    ("src=\x22").data ++ p.image ++ [('\x22' : Char)] <:+: cardImgSection p i lang := by
  unfold cardImgSection jsOr
  rw [if_neg h]
  refine ⟨("        <div class=\x22blog-card-img\x22>\n          <img ").data,
    (" alt=\x22").data ++
      escapeHtml (if p.image_alt = [] then p.title else p.image_alt) ++
      ("\x22/>\n          <div class=\x22blog-card-img-overlay\x22></div>\n          <div class=\x22blog-card-img-color\x22></div>\n          <span class=\x22blog-card-cat\x22>").data ++
      catLabel p lang ++ ("</span>\n        </div>\n").data, ?_⟩
  have e1 : ("        <div class=\x22blog-card-img\x22>\n          <img src=\x22").data =
      ("        <div class=\x22blog-card-img\x22>\n          <img ").data ++ ("src=\x22").data := by
    decide
  have e2 : ("\x22 alt=\x22").data = [('\x22' : Char)] ++ (" alt=\x22").data := by decide
  rw [e1, e2]
  simp [List.append_assoc]

lemma cardImg_infix_card (p : Post) (i : Nat) (lang : Lang) :
    cardImgSection p i lang <:+: generateBlogCard p i lang :=
  ⟨cardTop p i, cardBodySection p lang, by simp [generateBlogCard, List.append_assoc]⟩

/-- C9: when a post has a non-empty image URL, both renderers embed it
verbatim — the exact text `src="<image>"` occurs in the fragment, whatever
characters the URL contains — while the title, excerpt and alt text are
passed through `escapeMinimal`, whose output never contains a raw `<`, `>`
or `"`. -/
theorem image_src_unescaped (p : Post) (lang : Lang) (i : Nat) (h : p.image ≠ []) :
    (("src=\x22").data ++ p.image ++ [('\x22' : Char)] <:+: generateFeaturedPost p lang) ∧
    (("src=\x22").data ++ p.image ++ [('\x22' : Char)] <:+: generateBlogCard p i lang) ∧
    (∀ c, (c ∈ escapeHtml p.title ∨ c ∈ escapeHtml p.excerpt ∨
        c ∈ escapeHtml (jsOr p.image_alt p.title)) →
      ¬(c = '<' ∨ c = '>' ∨ c = '\x22')) := by
  refine ⟨(src_infix_featuredImgBlock h).trans (imgBlock_infix_featured p lang),
    (src_infix_cardImgSection i lang h).trans (cardImg_infix_card p i lang), ?_⟩
  intro c hc
  rcases hc with hc | hc | hc
  · exact escapeHtml_no_specials hc
  · exact escapeHtml_no_specials hc
  · exact escapeHtml_no_specials hc

/-- Witness for `image_src_unescaped` at a concrete post whose image URL
contains all four hazardous characters. -/
theorem image_src_unescaped_witness :
    sampleAmpPost.image ≠ [] ∧
    (("src=\x22").data ++ sampleAmpPost.image ++ [('\x22' : Char)] <:+:
      generateFeaturedPost sampleAmpPost Lang.en) :=
  ⟨by decide, (image_src_unescaped sampleAmpPost Lang.en 0 (by decide)).1⟩

/-! ## Claim theorems for the extractor and the migration run -/

lemma isInfix_cons {l t : List Char} (a : Char) (h : l <:+: t) : l <:+: a :: t := by
  obtain ⟨s, u, hs⟩ := h
  exact ⟨a :: s, u, by rw [List.cons_append, List.cons_append, hs]⟩

lemma splitAtSub_none {p : Char} {ps : List Char} :
    ∀ {l : List Char}, ¬ ((p :: ps) <:+: l) → splitAtSub p ps l = none := by
  intro l
  induction l with
  | nil => intro _; rfl
  | cons c cs ih =>
    intro h
    have hpre : ((p :: ps).isPrefixOf (c :: cs)) = false := by
      cases hp : (p :: ps).isPrefixOf (c :: cs) with
      | false => rfl
      | true =>
        have hp2 := ( List.isPrefixOf_iff_prefix).mp hp
        exact absurd ( List.IsPrefix.isInfix hp2) h
    show (if (p :: ps).isPrefixOf (c :: cs) = true then _ else _) = _
    rw [hpre]
    simp only [Bool.false_eq_true, if_false]
    rw [ih (fun habs => h (isInfix_cons c habs))]

/-- C6 counterexample: the absence of the featured opening marker in the
English page is fatal to the whole migration run — `extractFeatured` returns
null, and the run then crashes on `enFeatured.slug` before writing anything,
for any language. -/
theorem featured_absence_fatal :
    extractFeatured [] Lang.en = none ∧ runMigration (fun _ => []) = none :=
  ⟨rfl, rfl⟩

/-- C6 (amended): for every document lacking the featured opening marker,
`extractFeatured` returns null; this is non-fatal for the non-English pages —
whenever the English page has a featured block, the run completes, and a
language whose featured extraction is null still gets all its card documents
written — but a null featured extraction on the English page itself aborts
the run (`featured_absence_fatal`). -/
theorem extractFeatured_absence (html : List Char) (lang : Lang)
    (pages : Lang → List Char) :
    (¬ (featuredOpenLit <:+: html) → extractFeatured html lang = none) ∧
    ((extractFeatured (pages Lang.en) Lang.en).isSome = true →
      (runMigration pages).isSome = true) ∧
    (∀ (lang2 : Lang) (enSlugs : List (List Char)),
      extractFeatured (pages lang2) lang2 = none →
      langWrites lang2 (pages lang2) enSlugs =
        (unifyCards enSlugs (extractCards (pages lang2) lang2)).map
          (fun c => { lang := lang2, name := c.slug, post := c })) := by
  refine ⟨?_, ?_, ?_⟩
  · intro h
    unfold extractFeatured
    rw [splitAtSub_none h]
  · intro h
    unfold runMigration
    cases hf : extractFeatured (pages Lang.en) Lang.en with
    | none =>
      simp [hf] at h
    | some f =>
      rfl
  · intro lang2 enSlugs h
    unfold langWrites
    rw [h]
    rfl

/-- Witness for `extractFeatured_absence` at concrete pages: a marker-less
French page extracts to null, yet the run over `samplePages` (whose English
page has a featured block) completes, and the French language still receives
its (empty) card writes. -/
theorem extractFeatured_absence_witness :
    extractFeatured [] Lang.fr = none ∧
    (runMigration samplePages).isSome = true ∧
    langWrites Lang.fr (samplePages Lang.fr) [("hello").data] =
      (unifyCards [("hello").data] (extractCards (samplePages Lang.fr) Lang.fr)).map
        (fun c => { lang := Lang.fr, name := c.slug, post := c }) := by
  refine ⟨?_, ?_, ?_⟩
  · exact (extractFeatured_absence [] Lang.fr samplePages).1 (by decide)
  · exact (extractFeatured_absence [] Lang.fr samplePages).2.1 (by decide)
  · exact (extractFeatured_absence [] Lang.fr samplePages).2.2 Lang.fr
      [("hello").data] (by decide)

lemma unifyCardsFrom_cons (s : List (List Char)) (n : Nat) (c : Post) (cs : List Post) :
    unifyCardsFrom s n (c :: cs) =
      { c with slug := jsOr (s.getD (n + 1) []) c.slug } :: unifyCardsFrom s (n + 1) cs := rfl

lemma unifyCardsFrom_getElem? (s : List (List Char)) :
    ∀ (l : List Post) (n i : Nat),
      (unifyCardsFrom s n l)[i]? =
        (l[i]?).map (fun c => { c with slug := jsOr (s.getD (n + i + 1) []) c.slug }) := by
  intro l
  induction l with
  | nil => intro n i; simp [unifyCardsFrom]
  | cons c cs ih =>
    intro n i
    cases i with
    | zero => simp [unifyCardsFrom_cons]
    | succ j =>
      rw [unifyCardsFrom_cons, List.getElem?_cons_succ, List.getElem?_cons_succ,
        ih (n + 1) j]
      have ha : n + 1 + j + 1 = n + (j + 1) + 1 := by omega
      rw [ha]

lemma unifyCardsFrom_take (s : List (List Char)) :
    ∀ (l : List Post) (n k : Nat), n + l.length + 1 ≤ k →
      unifyCardsFrom s n l = unifyCardsFrom (s.take k) n l := by
  intro l
  induction l with
  | nil => intro n k _; rfl
  | cons c cs ih =>
    intro n k hk
    show _ :: _ = _ :: _
    have hlt : n + 1 < k := by
      simp only [List.length_cons] at hk
      omega
    have hgd : (s.take k).getD (n + 1) [] = s.getD (n + 1) [] := by
      rw [List.getD_eq_getElem?_getD, List.getD_eq_getElem?_getD, List.getElem?_take,
        if_pos hlt]
    rw [hgd]
    have hrest : unifyCardsFrom s (n + 1) cs = unifyCardsFrom (s.take k) (n + 1) cs := by
      apply ih
      simp only [List.length_cons] at hk
      omega
    rw [hrest]

/-- C8 counterexample: with canonical list `["x", ""]` and one card, the
index `0 + 1` is within the canonical list, yet the card keeps its own slug
`dira` instead of being replaced by the canonical (empty) slug at that
position — the falsy `||` check skips empty canonical slugs. -/
theorem unify_empty_canonical_counterexample :
    (0 : Nat) + 1 < ([("x").data, ([] : List Char)]).length ∧
    (unifyCards [("x").data, []] [samplePost]).map (fun c => c.slug) = [("dira").data] ∧
    ([("x").data, ([] : List Char)]).getD 1 [] ≠ ("dira").data := by
  refine ⟨by decide, by decide, by decide⟩

/-- C8 (amended): during slug unification, card `i` takes the canonical slug
at position `i + 1` when that position is within the canonical list and the
canonical slug there is non-empty; it keeps its own extracted slug both when
`i + 1` is beyond the canonical list's length and when the canonical slug at
that position is the empty string; and canonical slugs beyond position
`cards.length` are unused. -/
theorem unify_slugs (enSlugs : List (List Char)) (cards : List Post) (i : Nat) :
    (i + 1 < enSlugs.length → enSlugs.getD (i + 1) [] ≠ [] →
      ((unifyCards enSlugs cards)[i]?).map (fun c => c.slug) =
        (cards[i]?).map (fun _ => enSlugs.getD (i + 1) [])) ∧
    (enSlugs.length ≤ i + 1 →
      ((unifyCards enSlugs cards)[i]?).map (fun c => c.slug) =
        (cards[i]?).map (fun c => c.slug)) ∧
    (enSlugs.getD (i + 1) [] = [] →
      ((unifyCards enSlugs cards)[i]?).map (fun c => c.slug) =
        (cards[i]?).map (fun c => c.slug)) ∧
    unifyCards enSlugs cards = unifyCards (enSlugs.take (cards.length + 1)) cards := by
  refine ⟨?_, ?_, ?_, ?_⟩
  · intro _ hne
    unfold unifyCards
    rw [unifyCardsFrom_getElem? enSlugs cards 0 i]
    cases cards[i]? with
    | none => rfl
    | some c =>
      show some _ = some _
      simp only [Nat.zero_add]
      rw [show jsOr (enSlugs.getD (i + 1) []) c.slug = enSlugs.getD (i + 1) [] from
        if_neg hne]
  · intro hlen
    unfold unifyCards
    rw [unifyCardsFrom_getElem? enSlugs cards 0 i]
    cases cards[i]? with
    | none => rfl
    | some c =>
      show some _ = some _
      simp only [Nat.zero_add]
      rw [List.getD_eq_default _ _ hlen]
      rfl
  · intro hemp
    unfold unifyCards
    rw [unifyCardsFrom_getElem? enSlugs cards 0 i]
    cases cards[i]? with
    | none => rfl
    | some c =>
      show some _ = some _
      simp only [Nat.zero_add]
      rw [hemp]
      rfl
  · exact unifyCardsFrom_take enSlugs cards 0 (cards.length + 1) (by omega)

/-- Witness for `unify_slugs`: with canonical list `["a", "b"]`, the single
card at index 0 takes the in-range non-empty canonical slug `b`. -/
theorem unify_slugs_witness :
    ((unifyCards [("a").data, ("b").data] [samplePost])[0]?).map (fun c => c.slug) =
      (([samplePost])[0]?).map (fun _ => ([("a").data, ("b").data]).getD 1 []) :=
  (unify_slugs [("a").data, ("b").data] [samplePost] 0).1 (by decide) (by decide)

end Isratest
